import Mathlib

/-!
Verification of the PSPM CLI dependency-resolution core against its
natural-language specification.

The development shallowly embeds the relevant TypeScript sources:

* `src/lib/version.ts` — semver selection (`findHighestSatisfying`);
* `src/lib/resolver.ts` — the recursive registry resolver
  (`resolveRecursive`, `topologicalSort`);
* `src/commands/add.ts` — the `add` command pipeline;
* `src/lockfile.ts` — the lockfile writer (`writeLockfile`);
* `src/commands/install.ts` — the tarball cache (`getCacheFilePath`,
  `readFromCache`);
* `src/symlinks.ts` — the agent linker (`createSymlink`);
* `src/lib/local.ts` and the local branch of `add.ts` — local-skill
  validation;
* `src/lib/integrity.ts` — integrity strings.

Version strings are modelled by their parse result (`VersionStr`), and
semver range strings by their parsed comparator sets (`RangeStr`): the
string-level parsers of the external `semver` npm package are out of
scope, but the package's *semantics* of comparison and range
satisfaction (including the exclusion of prerelease versions from
ranges that carry no prerelease comparator on the same base triple) is
modelled faithfully.  SHA-256 itself is treated as an abstract function
parameter; base64 and hex codecs are modelled concretely.
-/

/- ===================================================================
   Semver model (external `semver` npm package, as used by
   `src/lib/version.ts`)
   =================================================================== -/

/-- A prerelease identifier: numeric (compared as numbers) or
alphanumeric (compared as strings); numeric identifiers have lower
precedence than alphanumeric ones. -/
inductive PreId where
  | num (n : Nat)
  | str (s : String)
deriving DecidableEq

/-- A parsed semver version.  Build metadata is ignored by semver
precedence and by every code path under verification, so it is not
modelled. -/
structure Version where
  major : Nat
  minor : Nat
  patch : Nat
  prerelease : List PreId
deriving DecidableEq

/-- Strict precedence on prerelease identifiers
(semver spec item 11.4). -/
def pLt : PreId → PreId → Bool
  | .num a, .num b => decide (a < b)
  | .num _, .str _ => true
  | .str _, .num _ => false
  | .str a, .str b => decide (a < b)

/-- Strict lexicographic precedence on prerelease identifier lists;
a strict prefix has lower precedence (semver spec item 11.4.4). -/
def prerelLt : List PreId → List PreId → Bool
  | [], [] => false
  | [], _ :: _ => true
  | _ :: _, [] => false
  | a :: as, b :: bs => pLt a b || (a == b && prerelLt as bs)

/-- Prerelease comparison at equal `major.minor.patch`: a version with
a prerelease has lower precedence than the corresponding release
(semver spec item 11.3). -/
def preRankL : List PreId → List PreId → Bool
  | _ :: _, [] => true
  | [], _ => false
  | a1 :: as, b1 :: bs => prerelLt (a1 :: as) (b1 :: bs)

/-- `preRankL` applied to the prerelease components. -/
def preRank (a b : Version) : Bool := preRankL a.prerelease b.prerelease

/-- Strict semver precedence (`semver.compare a b < 0`). -/
def vLt (a b : Version) : Bool :=
  decide (a.major < b.major) ||
    (a.major == b.major && (decide (a.minor < b.minor) ||
      (a.minor == b.minor && (decide (a.patch < b.patch) ||
        (a.patch == b.patch && preRank a b)))))

/-- Non-strict semver precedence (`semver.compare a b <= 0`). -/
def vle (a b : Version) : Bool := vLt a b || a == b

/-- The descending order used to model
`sort((a, b) => semver.rcompare(a, b))`. -/
def vge (a b : Version) : Prop := vle b a = true

instance : DecidableRel vge := fun a b => inferInstanceAs (Decidable (vle b a = true))

/-- Comparison operator of a range comparator. -/
inductive CompOp where
  | lt | le | gt | ge | eq
deriving DecidableEq

/-- One comparator of a parsed range: either the any-version comparator
(produced by `*` / the empty comparator) or an operator applied to a
version. -/
inductive Comparator where
  | any
  | cmp (op : CompOp) (v : Version)
deriving DecidableEq

/-- A conjunction of comparators (one alternative of a range). -/
abbrev CompSet := List Comparator

/-- A parsed range: a disjunction (`||`) of comparator conjunctions,
as produced by node-semver's range parser. -/
abbrev SemverRange := List CompSet

/-- `opTest op v cv` is node-semver's `cmp(v, op, cv)`. -/
def opTest (op : CompOp) (v cv : Version) : Bool :=
  match op with
  | .lt => vLt v cv
  | .le => vle v cv
  | .gt => vLt cv v
  | .ge => vle cv v
  | .eq => v == cv

/-- One comparator applied to a version (`Comparator.test`). -/
def compTest (c : Comparator) (v : Version) : Bool :=
  match c with
  | .any => true
  | .cmp op cv => opTest op v cv

/-- Equality of the `major.minor.patch` triple. -/
def sameTuple (a b : Version) : Bool :=
  a.major == b.major && a.minor == b.minor && a.patch == b.patch

/-- node-semver's prerelease rule inside `testSet`: a version that has
prerelease identifiers satisfies a comparator set only if some
non-`any` comparator carries a prerelease on the same
`major.minor.patch` triple. -/
def prereleaseAllowed (s : CompSet) (v : Version) : Bool :=
  s.any fun c =>
    match c with
    | .any => false
    | .cmp _ cv => !cv.prerelease.isEmpty && sameTuple cv v

/-- node-semver's `testSet`. -/
def testSet (s : CompSet) (v : Version) : Bool :=
  s.all (fun c => compTest c v) && (v.prerelease.isEmpty || prereleaseAllowed s v)

/-- node-semver's `Range.test`. -/
def rangeTest (r : SemverRange) (v : Version) : Bool :=
  r.any (fun s => testSet s v)

/-- A range string as handed to `src/lib/version.ts`, modelled by its
parse: the empty string, the literal `latest`, the literal `*`, any
other valid range (by its parsed comparator sets), or an invalid range
string. -/
inductive RangeStr where
  | empty
  | latest
  | star
  | range (r : SemverRange)
  | invalid (s : String)
deriving DecidableEq

/-- A version string, modelled by its parse: `semver.valid` either
rejects it or yields a parsed version. -/
inductive VersionStr where
  | invalid (s : String)
  | valid (v : Version)
deriving DecidableEq

/-- `semver.valid`: the filter `availableVersions.filter((v) => semver.valid(v))`
keeps exactly the parseable strings, modelled by `filterMap semverValid`. -/
def semverValid : VersionStr → Option Version
  | .invalid _ => none
  | .valid v => some v

/-- The parse of the range string `*` (one set holding the any
comparator). -/
def starRange : SemverRange := [[Comparator.any]]

/-- node-semver's `satisfies(version, rangeString)`: an invalid range
string makes `satisfies` return `false` (the `Range` constructor throw
is caught); the empty string parses like `*`; `latest` is not a valid
range. -/
def semverSatisfies (v : Version) : RangeStr → Bool
  | .empty => rangeTest starRange v
  | .latest => false
  | .star => rangeTest starRange v
  | .range r => rangeTest r v
  | .invalid _ => false

/-- `src/lib/version.ts` line 87–89: ranges that are empty, `latest`
or `*` are replaced by `*`. -/
def normalizeRange (r : RangeStr) : RangeStr :=
  match r with
  | .empty => .star
  | .latest => .star
  | .star => .star
  | other => other

/-- The predicate of the selection loop of `findHighestSatisfying`
(`normalizedRanges.every((range) => semver.satisfies(version, range))`). -/
def satisfiesAll (ranges : List RangeStr) (v : Version) : Bool :=
  (ranges.map normalizeRange).all (fun r => semverSatisfies v r)

/-- `src/lib/version.ts` `findHighestSatisfying` (lines 76–102): keep
the valid versions, sort them descending by semver precedence, and
return the first one satisfying every normalized range. -/
def findHighestSatisfying (ranges : List RangeStr)
    (availableVersions : List VersionStr) : Option Version :=
  let sorted := List.insertionSort vge (availableVersions.filterMap semverValid)
  if sorted.isEmpty then none
  else sorted.find? (fun v => satisfiesAll ranges v)

/-- The set (as a list) of valid candidate versions satisfying every
normalized range — what the code's selection loop searches. -/
def satisfyingSet (ranges : List RangeStr) (availableVersions : List VersionStr) :
    List Version :=
  (availableVersions.filterMap semverValid).filter (fun v => satisfiesAll ranges v)

/-- The claim's reading of satisfaction, in which an empty range,
`latest` and `*` each match *every* version (including prereleases). -/
def claimMatches (v : Version) : RangeStr → Bool
  | .empty => true
  | .latest => true
  | .star => true
  | .range r => rangeTest r v
  | .invalid _ => false

/-- The satisfying set under the claim's reading. -/
def claimSatisfying (ranges : List RangeStr) (availableVersions : List VersionStr) :
    List Version :=
  (availableVersions.filterMap semverValid).filter (fun v => ranges.all (claimMatches v))

/- ===================================================================
   Resolver data model (src/lib/resolver.ts)
   =================================================================== -/

/-- `DependencyNode` of `src/lib/resolver.ts` (lines 34–55).
`dependencies` is the `Record` of the resolved version's manifest:
dependency name to requested range, in key order. -/
structure DependencyNode where
  name : String
  version : Version
  versionRange : RangeStr
  downloadUrl : String
  integrity : String
  depth : Nat
  dependencies : List (String × RangeStr)
  dependents : List String
  isDirect : Bool
  deprecated : Option String
deriving DecidableEq

/-- `ResolutionErrorType` (lines 77–82). -/
inductive ResolutionErrorType where
  | circular_dependency
  | max_depth_exceeded
  | no_satisfying_version
  | package_not_found
  | fetch_error
deriving DecidableEq

/-- `ResolutionError` (lines 84–90). -/
structure ResolutionError where
  type : ResolutionErrorType
  package : String
  message : String
  path : Option (List String)
deriving DecidableEq

/-- `VersionConflict` (lines 92–99); `ranges` pairs a dependent with
the range it requested. -/
structure VersionConflict where
  package : String
  ranges : List (String × RangeStr)
  availableVersions : List VersionStr
deriving DecidableEq

/-- `DependencyGraph` (lines 57–66).  The JS `Map` is modelled as an
insertion-ordered association list; `Map` keys are unique, which
appears as a `Nodup` hypothesis where needed. -/
structure DependencyGraph where
  nodes : List (String × DependencyNode)
  roots : List String
  errors : List ResolutionError
  conflicts : List VersionConflict
deriving DecidableEq

/-- `Map.get` on the node map. -/
def lookupNode (nodes : List (String × DependencyNode)) (name : String) :
    Option DependencyNode :=
  (nodes.find? (fun p => p.1 == name)).map (·.2)

/-- `Map.has` on the node map. -/
def hasNode (nodes : List (String × DependencyNode)) (name : String) : Bool :=
  nodes.any (fun p => p.1 == name)

/-- `Object.keys(node.dependencies)`. -/
def depKeys (node : DependencyNode) : List String := node.dependencies.map (·.1)

/-- The dependency keys of `name` that are present in the graph — the
edges `topologicalSort` counts (`if (graph.nodes.has(depName))`). -/
def inGraphDeps (g : DependencyGraph) (name : String) : List String :=
  match lookupNode g.nodes name with
  | some node => (depKeys node).filter (fun d => hasNode g.nodes d)
  | none => []

/-- `inDegree.get name` after the two initialization loops of
`topologicalSort` (lines 426–445): the number of dependencies of
`name` present in the graph. -/
def initInDegree (g : DependencyGraph) (name : String) : Int :=
  ((inGraphDeps g name).length : Int)

/-- `dependents.get b` after the initialization loops: for each entry
`(a, node)` of the node map in insertion order, one occurrence of `a`
per dependency key of `a` that is in the graph and equal to `b`. -/
def initDependents (g : DependencyGraph) (b : String) : List String :=
  g.nodes.flatMap
    (fun p => ((depKeys p.2).filter (fun d => hasNode g.nodes d && d == b)).map
      (fun _ => p.1))

/-- The body of the inner `for` loop of Kahn's algorithm
(lines 461–469): decrement the dependent's in-degree; when it reaches
zero and the node is not yet in `sorted`, append it to the queue.
The state is the pair (in-degree map, queue). -/
def processDependents (sorted' : List String)
    (st : (String → Int) × List String) (dependent : String) :
    (String → Int) × List String :=
  if st.1 dependent - 1 == 0 && !(sorted'.contains dependent) then
    (fun n => if n == dependent then st.1 dependent - 1 else st.1 n,
      st.2 ++ [dependent])
  else
    (fun n => if n == dependent then st.1 dependent - 1 else st.1 n, st.2)

/-- The `while (queue.length > 0)` loop of `topologicalSort`
(lines 456–470), with explicit fuel.  Each node enters the queue at
most once from initialization and at most once when its in-degree
first reaches zero, so `2 * |nodes| + 2` iterations always drain the
queue; the fuel never runs out on the inputs the function is called
with. -/
def kahnLoop (g : DependencyGraph) :
    Nat → (String → Int) → List String → List String → List String
  | 0, _, _, sorted => sorted
  | _ + 1, _, [], sorted => sorted
  | fuel + 1, inDeg, current :: rest, sorted =>
    let sorted' := sorted ++ [current]
    let st := (initDependents g current).foldl (processDependents sorted') (inDeg, rest)
    kahnLoop g fuel st.1 st.2 sorted'

/-- `topologicalSort` of `src/lib/resolver.ts` (lines 419–473):
Kahn's algorithm over the nodes of the graph, ignoring edges that
leave the graph. -/
def topologicalSort (g : DependencyGraph) : List String :=
  let keys := g.nodes.map (·.1)
  let queue0 := keys.filter (fun n => initInDegree g n == 0)
  kahnLoop g (2 * keys.length + 2) (fun n => initInDegree g n) queue0 []

/-- Invariant of `kahnLoop`: `sorted` is duplicate-free and respects
dependencies; queue entries are unsorted nodes all of whose in-graph
dependencies are sorted; the in-degree map counts the unsorted
in-graph dependencies of every name. -/
def KahnInv (g : DependencyGraph) (inDeg : String → Int)
    (queue : List String) (sorted : List String) : Prop :=
  sorted.Nodup ∧ queue.Nodup ∧
    (∀ q ∈ queue, q ∉ sorted ∧ ∀ b ∈ inGraphDeps g q, b ∈ sorted) ∧
    (∀ a, inDeg a =
      (((inGraphDeps g a).filter (fun b => !(sorted.contains b))).length : Int)) ∧
    (∀ a ∈ sorted, ∀ b ∈ inGraphDeps g a,
      b ∈ sorted ∧ sorted.indexOf b < sorted.indexOf a)

/-- Example node `@user/u/a` with no dependencies. -/
def exNodeA : DependencyNode :=
  { name := "@user/u/a", version := ⟨1, 0, 0, []⟩, versionRange := RangeStr.star,
    downloadUrl := "https://registry/a", integrity := "sha256-aa", depth := 1,
    dependencies := [], dependents := ["@user/u/b"], isDirect := false,
    deprecated := none }

/-- Example node `@user/u/b` depending on `@user/u/a`. -/
def exNodeB : DependencyNode :=
  { name := "@user/u/b", version := ⟨2, 0, 0, []⟩, versionRange := RangeStr.star,
    downloadUrl := "https://registry/b", integrity := "sha256-bb", depth := 0,
    dependencies := [("@user/u/a", RangeStr.star)], dependents := ["root"],
    isDirect := true, deprecated := none }

/-- Example dependency graph: `b` (listed first) depends on `a`. -/
def exGraph : DependencyGraph :=
  { nodes := [("@user/u/b", exNodeB), ("@user/u/a", exNodeA)],
    roots := ["@user/u/b"], errors := [], conflicts := [] }

/- ===================================================================
   Byte strings, base64 and hex codecs (Node `Buffer` conversions),
   integrity strings (src/lib/integrity.ts), and the tarball cache
   (src/commands/install.ts)
   =================================================================== -/

/-- One base64 output character for a sextet value (the standard
alphabet); inputs are always < 64. -/
def base64EncChar (n : Nat) : Char :=
  if n < 26 then Char.ofNat (65 + n)
  else if n < 52 then Char.ofNat (97 + (n - 26))
  else if n < 62 then Char.ofNat (48 + (n - 52))
  else if n = 62 then '+'
  else '/'

/-- Standard base64 decoding of one character; `=` and every character
outside the alphabet yield `none`. -/
def base64DecChar (c : Char) : Option Nat :=
  if 'A' ≤ c ∧ c ≤ 'Z' then some (c.toNat - 65)
  else if 'a' ≤ c ∧ c ≤ 'z' then some (c.toNat - 97 + 26)
  else if '0' ≤ c ∧ c ≤ '9' then some (c.toNat - 48 + 52)
  else if c = '+' then some 62
  else if c = '/' then some 63
  else none

/-- Standard base64 encoding of a byte list, three bytes to four
characters, with `=` padding (Node `Buffer.toString("base64")`). -/
def base64EncodeChunks : List Nat → List Char
  | b0 :: b1 :: b2 :: rest =>
    base64EncChar (b0 / 4) :: base64EncChar ((b0 % 4) * 16 + b1 / 16)
      :: base64EncChar ((b1 % 16) * 4 + b2 / 64) :: base64EncChar (b2 % 64)
      :: base64EncodeChunks rest
  | [b0] => [base64EncChar (b0 / 4), base64EncChar ((b0 % 4) * 16), '=', '=']
  | [b0, b1] => [base64EncChar (b0 / 4), base64EncChar ((b0 % 4) * 16 + b1 / 16),
      base64EncChar ((b1 % 16) * 4), '=']
  | [] => []

/-- `Buffer.toString("base64")`. -/
def base64Encode (bs : List Nat) : String := String.mk (base64EncodeChunks bs)

/-- Reassemble bytes from a sextet list, four sextets to three bytes;
two or three trailing sextets yield one or two bytes, a single
trailing sextet yields none. -/
def base64DecodeSextets : List Nat → List Nat
  | s0 :: s1 :: s2 :: s3 :: rest =>
    (s0 * 4 + s1 / 16) :: ((s1 % 16) * 16 + s2 / 4) :: ((s2 % 4) * 64 + s3)
      :: base64DecodeSextets rest
  | [s0, s1] => [s0 * 4 + s1 / 16]
  | [s0, s1, s2] => [s0 * 4 + s1 / 16, (s1 % 16) * 16 + s2 / 4]
  | _ => []

/-- `Buffer.from(s, "base64")`: characters outside the alphabet
(including `=` padding) are skipped, then sextets are reassembled. -/
def base64Decode (s : String) : List Nat :=
  base64DecodeSextets (s.toList.filterMap base64DecChar)

/-- One lowercase hex digit. -/
def hexDigit (n : Nat) : Char :=
  if n < 10 then Char.ofNat (48 + n) else Char.ofNat (87 + n)

/-- `Buffer.toString("hex")`: two lowercase hex digits per byte. -/
def hexEncode (bs : List Nat) : String :=
  String.mk (bs.flatMap (fun b => [hexDigit (b / 16), hexDigit (b % 16)]))

/-- Hex decoding of one character (both cases accepted). -/
def hexDecChar (c : Char) : Option Nat :=
  if '0' ≤ c ∧ c ≤ '9' then some (c.toNat - 48)
  else if 'a' ≤ c ∧ c ≤ 'f' then some (c.toNat - 97 + 10)
  else if 'A' ≤ c ∧ c ≤ 'F' then some (c.toNat - 65 + 10)
  else none

/-- `Buffer.from(s, "hex")` on a character list: consume hex-digit
pairs, stopping at the first invalid pair or odd tail. -/
def hexDecodeChars : List Char → List Nat
  | c1 :: c2 :: rest =>
    match hexDecChar c1, hexDecChar c2 with
    | some h, some l => (h * 16 + l) :: hexDecodeChars rest
    | _, _ => []
  | _ => []

/-- `Buffer.from(s, "hex")`. -/
def hexDecode (s : String) : List Nat := hexDecodeChars s.toList

/-- The test of the regex `^sha256-(.+)$` (no `/s` flag: `.` does not
match a line break; integrity strings are ASCII, so only `\n` and
`\r` matter), returning the captured suffix. -/
def matchSha256Suffix (s : String) : Option String :=
  match s.toList with
  | 's' :: 'h' :: 'a' :: '2' :: '5' :: '6' :: '-' :: rest =>
    if rest ≠ [] ∧ rest.all (fun c => c ≠ '\n' && c ≠ '\r') then some (String.mk rest)
    else none
  | _ => none

/-- `src/lib/integrity.ts` `calculateIntegrity` (lines 10–13).  The
SHA-256 digest itself is the abstract parameter `h` (digest bytes);
the code base64-encodes it and adds the `sha256-` tag. -/
def calculateIntegrity (h : List Nat → List Nat) (data : List Nat) : String :=
  "sha256-" ++ base64Encode (h data)

/-- `src/lib/integrity.ts` `verifyIntegrity` (lines 22–33): match the
expected string against `^sha256-(.+)$`; on failure return `false`;
otherwise compare the recomputed base64 digest with the captured
group. -/
def verifyIntegrity (h : List Nat → List Nat) (data : List Nat)
    (expectedIntegrity : String) : Bool :=
  match matchSha256Suffix expectedIntegrity with
  | none => false
  | some captured => base64Encode (h data) == captured

/-- `src/commands/install.ts` `getCacheFilePath` (lines 55–66): match
the integrity string, throw (`Except.error`) on a malformed one, and
otherwise build `<cacheDir>/sha256-<hex>.tgz` from the base64-decoded
digest bytes.  `join` is modelled as `/`-separated concatenation. -/
def getCacheFilePath (cacheDir : String) (integrity : String) :
    Except String String :=
  match matchSha256Suffix integrity with
  | none => Except.error ("Invalid integrity format: " ++ integrity)
  | some base64Hash =>
    Except.ok (cacheDir ++ "/" ++ ("sha256-" ++ hexEncode (base64Decode base64Hash) ++ ".tgz"))

/-- `src/commands/install.ts` `readFromCache` (lines 71–91).  The
filesystem is a map from path to contents; `none` models any failure
to open or read.  The result pairs the returned value with the
filesystem left behind (the mismatch branch removes the cache file);
the enclosing try/catch turns a `getCacheFilePath` throw or a read
failure into a `null` result. -/
def readFromCache (h : List Nat → List Nat) (fs : String → Option (List Nat))
    (cacheDir : String) (integrity : String) :
    Option (List Nat) × (String → Option (List Nat)) :=
  match getCacheFilePath cacheDir integrity with
  | .error _ => (none, fs)
  | .ok cachePath =>
    match fs cachePath with
    | none => (none, fs)
    | some data =>
      if ("sha256-" ++ base64Encode (h data)) != integrity then
        (none, fun p => if p = cachePath then none else fs p)
      else (some data, fs)

/- ===================================================================
   Agent linker (src/symlinks.ts), local validation (src/commands/add.ts),
   lockfile writer (src/lockfile.ts)
   =================================================================== -/

/-- What `lstat` (no symlink following) can find at a path. -/
inductive FSEntry where
  | symlinkTo (target : String)
  | file
  | dir
deriving DecidableEq

/-- `src/symlinks.ts` `createSymlink` (lines 391–427), acting on a
filesystem map (path to entry; `none` models `lstat` rejection).
Returns the new filesystem and the warnings printed.  A failure of the
final `symlink` call is caught and warned; the model treats creation
as succeeding, which is the interesting path for reconciliation. -/
def createSymlink (fs : String → Option FSEntry)
    (symlinkPath target skillName : String) :
    (String → Option FSEntry) × List String :=
  match fs symlinkPath with
  | none =>
    (fun p => if p = symlinkPath then some (FSEntry.symlinkTo target) else fs p, [])
  | some (FSEntry.symlinkTo existingTarget) =>
    if existingTarget = target then (fs, [])
    else
      (fun p => if p = symlinkPath then some (FSEntry.symlinkTo target) else fs p, [])
  | some _ =>
    (fs, ["Warning: File exists at symlink path for \"" ++ skillName
      ++ "\", skipping: " ++ symlinkPath])

/-- What a `stat` (following symlinks) call can find at a path. -/
inductive FileKind where
  | file
  | dir
deriving DecidableEq

/-- `String.startsWith`, computed on the character lists (the string
primitives of the standard library do not reduce well inside the
kernel). -/
def strStartsWith (s pre : String) : Bool :=
  s.toList.take pre.toList.length == pre.toList

/-- `String.drop`, computed on the character lists. -/
def strDrop (s : String) (n : Nat) : String := String.mk (s.toList.drop n)

/-- `parseLocalPath` of `src/commands/add.ts` (strip the `file:`
scheme). -/
def parseLocalPath (specifier : String) : String :=
  if strStartsWith specifier "file:" then strDrop specifier 5 else specifier

/-- `normalizeToFileSpecifier` of `src/commands/add.ts`. -/
def normalizeToFileSpecifier (path : String) : String :=
  if strStartsWith path "file:" then path else "file:" ++ path

/-- `path.resolve(cwd, path)` for already-normalised inputs: absolute
paths stand, relative ones are anchored at `cwd` (no `..` collapsing
is modelled). -/
def resolvePath (cwd path : String) : String :=
  if strStartsWith path "/" then path else cwd ++ "/" ++ path

/-- `path.basename`: the last non-empty `/`-separated segment (the
whole path when there is none). -/
def basename (p : String) : String :=
  String.mk (((p.toList.splitOn '/').filter (fun s => s ≠ [])).getLastD p.toList)

/-- The validated-local-package record of `src/commands/add.ts`. -/
structure ResolvedLocalPackage where
  specifier : String
  normalizedSpecifier : String
  path : String
  resolvedPath : String
  name : String
deriving DecidableEq

/-- `src/commands/add.ts` `validateLocalPackage` (lines 1110–1171):
resolve the path, require an existing directory, require at least one
of `SKILL.md` or `pspm.json` (their `stat` calls are try/catch-ed, so
any kind of entry counts), and name the skill after the last path
segment.  The filesystem map carries no file contents: validation
only ever calls `stat`, never reads bytes. -/
def validateLocalPackage (fsKind : String → Option FileKind)
    (cwd specifier : String) : Except String ResolvedLocalPackage :=
  let path := parseLocalPath specifier
  let resolvedPath := resolvePath cwd path
  let normalizedSpecifier := normalizeToFileSpecifier path
  match fsKind resolvedPath with
  | none =>
    Except.error ("Directory not found: " ++ resolvedPath
      ++ "\n  Check that the path exists and is accessible.")
  | some FileKind.file => Except.error ("Path is not a directory: " ++ resolvedPath)
  | some FileKind.dir =>
    let hasSkillMd := (fsKind (resolvedPath ++ "/SKILL.md")).isSome
    let hasPspmJson := (fsKind (resolvedPath ++ "/pspm.json")).isSome
    if !hasSkillMd && !hasPspmJson then
      Except.error ("Not a valid skill directory: " ++ resolvedPath
        ++ "\n  Missing both SKILL.md and pspm.json. At least one is required.")
    else
      Except.ok
        { specifier := specifier, normalizedSpecifier := normalizedSpecifier,
          path := path, resolvedPath := resolvedPath,
          name := basename resolvedPath }

/-- Registry lockfile entry (`src/lib/lockfile.ts`). -/
structure PspmLockfileEntry where
  version : String
  resolved : String
  integrity : String
  deprecated : Option String
  dependencies : Option (List (String × String))
deriving DecidableEq

/-- GitHub lockfile entry. -/
structure GitHubLockfileEntry where
  version : String
  resolved : String
  integrity : String
  gitCommit : String
  gitRef : String
deriving DecidableEq

/-- Local lockfile entry (`version` is always the literal `local`). -/
structure LocalLockfileEntry where
  path : String
  resolvedPath : String
  name : String
deriving DecidableEq

/-- The lockfile document (`pspm-lock.json`): JSON maps are modelled
as key-ordered association lists, an absent section as `none`. -/
structure PspmLockfile where
  lockfileVersion : Nat
  registryUrl : String
  packages : Option (List (String × PspmLockfileEntry))
  githubPackages : Option (List (String × GitHubLockfileEntry))
  localPackages : Option (List (String × LocalLockfileEntry))
  skills : Option (List (String × PspmLockfileEntry))
deriving DecidableEq

/-- `src/lockfile.ts` `writeLockfile` (lines 121–148): the document
actually serialised.  `packages` falls back to the legacy `skills`
map; the version is 4 when some package has a non-empty
`dependencies` record and 3 otherwise; `githubPackages` is copied only
when non-empty; no other section is ever written. -/
def writeLockfileDoc (lockfile : PspmLockfile) : PspmLockfile :=
  let packages := (lockfile.packages.orElse (fun _ => lockfile.skills)).getD []
  let hasDependencies := packages.any (fun pkg =>
    match pkg.2.dependencies with
    | some deps => decide (deps.length > 0)
    | none => false)
  let version := if hasDependencies then 4 else 3
  let normalized : PspmLockfile :=
    { lockfileVersion := version, registryUrl := lockfile.registryUrl,
      packages := some packages, githubPackages := none, localPackages := none,
      skills := none }
  match lockfile.githubPackages with
  | some gh => if gh.length > 0 then { normalized with githubPackages := some gh }
    else normalized
  | none => normalized

/-- A lockfile value whose `localPackages` section is populated, as
the local-install path of `add`/`install` produces since v0.3.0. -/
def exLockfileV5 : PspmLockfile :=
  { lockfileVersion := 5, registryUrl := "https://pspm.dev",
    packages := some [],
    githubPackages := none,
    localPackages := some [("file:../my-skill",
      { path := "../my-skill", resolvedPath := "/home/user/my-skill",
        name := "my-skill" })],
    skills := none }

/- ===================================================================
   resolveRecursive (src/lib/resolver.ts, lines 138-406)
   =================================================================== -/

/-- A collected version range (`CollectedRange`, lines 101-105). -/
structure CollectedRange where
  range : RangeStr
  dependent : String
  depth : Nat
deriving DecidableEq

/-- A BFS queue item (`QueueItem`, lines 107-113). -/
structure QueueItem where
  name : String
  versionRange : RangeStr
  depth : Nat
  dependent : String
  path : List String
deriving DecidableEq

/-- The registry's answer for one skill version
(`getSkillVersion(...).data`): download URL, hex checksum, the
manifest's `dependencies` record in key order, and an optional
deprecation message. -/
structure VersionInfo where
  downloadUrl : String
  checksum : String
  manifest : List (String × RangeStr)
  deprecationMessage : Option String
deriving DecidableEq

/-- Outcome of a registry API call: the promise rejected (caught by
the surrounding `try`), the response had a non-200 status, or it
succeeded with data. -/
inductive RegResult (α : Type) where
  | thrown
  | badStatus
  | ok (a : α)
deriving DecidableEq

/-- The registry environment: `listSkillVersions(username, skillName)`
and `getSkillVersion(username, skillName, version)`. -/
structure Registry where
  listVersions : String → String → RegResult (List VersionStr)
  getVersion : String → String → Version → RegResult VersionInfo

/-- The resolver's phase-1 mutable state: BFS queue, node map, error
list, collected ranges per package, and the `processing` set (kept as
an insertion-ordered list). -/
structure Phase1State where
  queue : List QueueItem
  nodes : List (String × DependencyNode)
  errors : List ResolutionError
  rangesByPackage : List (String × List CollectedRange)
  processing : List String
deriving DecidableEq

/-- `Map.set` on the node map: replace in place when the key exists,
append otherwise. -/
def mapSet (nodes : List (String × DependencyNode)) (name : String)
    (node : DependencyNode) : List (String × DependencyNode) :=
  if nodes.any (fun p => p.1 == name) then
    nodes.map (fun p => if p.1 == name then (name, node) else p)
  else nodes ++ [(name, node)]

/-- Lines 202-210: ensure a `rangesByPackage` entry exists and push
the collected range onto it. -/
def collectRange (m : List (String × List CollectedRange)) (name : String)
    (r : CollectedRange) : List (String × List CollectedRange) :=
  if m.any (fun p => p.1 == name) then
    m.map (fun p => if p.1 == name then (p.1, p.2 ++ [r]) else p)
  else m ++ [(name, [r])]

/-- The package-name regex match against
`^@user\/([^/]+)\/([^/]+)$`: `@user/` followed by exactly two
non-empty `/`-free segments. -/
def splitUserPkg (name : String) : Option (String × String) :=
  match name.toList with
  | '@' :: 'u' :: 's' :: 'e' :: 'r' :: '/' :: rest =>
    match rest.splitOn '/' with
    | [u, s] =>
      if u.isEmpty ∨ s.isEmpty then none
      else some (String.mk u, String.mk s)
    | _ => none
  | _ => none

/-- `" -> "`-joined path, as in the diagnostic messages. -/
def joinArrow (l : List String) : String := String.intercalate " -> " l

/-- The fetch part of one phase-1 iteration (lines 218-322, after the
`processing` check): parse the name, list versions, pick the highest
satisfying one, fetch its details, and build the node together with
the queue items for its dependencies; each failure maps to the error
the code pushes (message texts abbreviated to stable prefixes). -/
def fetchOutcome (reg : Registry) (item : QueueItem) :
    Except ResolutionError (DependencyNode × List QueueItem) :=
  match splitUserPkg item.name with
  | none => .error
      { type := .package_not_found, package := item.name,
        message := "Invalid package name format: " ++ item.name, path := none }
  | some (u, s) =>
    match reg.listVersions u s with
    | .thrown => .error
        { type := .fetch_error, package := item.name,
          message := "Error fetching " ++ item.name, path := none }
    | .badStatus => .error
        { type := .package_not_found, package := item.name,
          message := "Package " ++ item.name ++ " not found in registry",
          path := none }
    | .ok versions =>
      if versions.isEmpty then
        .error
          { type := .package_not_found, package := item.name,
            message := "Package " ++ item.name ++ " has no versions", path := none }
      else
        match findHighestSatisfying [item.versionRange] versions with
        | none => .error
            { type := .no_satisfying_version, package := item.name,
              message := "No version of " ++ item.name
                ++ " satisfies the requested range",
              path := none }
        | some v =>
          match reg.getVersion u s v with
          | .thrown => .error
              { type := .fetch_error, package := item.name,
                message := "Error fetching " ++ item.name, path := none }
          | .badStatus => .error
              { type := .fetch_error, package := item.name,
                message := "Failed to fetch " ++ item.name, path := none }
          | .ok info =>
            .ok ({ name := item.name, version := v,
                   versionRange := item.versionRange,
                   downloadUrl := info.downloadUrl,
                   integrity := "sha256-" ++ base64Encode (hexDecode info.checksum),
                   depth := item.depth, dependencies := info.manifest,
                   dependents := [item.dependent],
                   isDirect := item.depth == 0,
                   deprecated := info.deprecationMessage },
                 info.manifest.map (fun d =>
                   { name := d.1, versionRange := d.2, depth := item.depth + 1,
                     dependent := item.name, path := item.path ++ [item.name] }))

/-- One iteration of the phase-1 `while` body (lines 175-322) on a
dequeued item: depth check, circular check, range collection,
`processing` check, then the fetch.  `st.queue` is the remaining
queue; dependency items are pushed onto its end. -/
def phase1Step (reg : Registry) (maxDepth : Nat) (st : Phase1State)
    (item : QueueItem) : Phase1State :=
  if item.depth > maxDepth then
    { st with errors := st.errors ++
        [{ type := .max_depth_exceeded,
           package := item.name,
           message := "Maximum dependency depth (" ++ Nat.repr maxDepth
             ++ ") exceeded at: " ++ joinArrow (item.path ++ [item.name]),
           path := some (item.path ++ [item.name]) }] }
  else if item.path.contains item.name then
    { st with errors := st.errors ++
        [{ type := .circular_dependency,
           package := item.name,
           message := "Circular dependency detected: "
             ++ joinArrow (item.path ++ [item.name]),
           path := some (item.path ++ [item.name]) }] }
  else if st.processing.contains item.name then
    { st with rangesByPackage :=
        (collectRange st.rangesByPackage item.name
          ⟨item.versionRange, item.dependent, item.depth⟩) }
  else
    match fetchOutcome reg item with
    | .error e =>
      { st with
        rangesByPackage :=
          (collectRange st.rangesByPackage item.name
            ⟨item.versionRange, item.dependent, item.depth⟩),
        processing := st.processing ++ [item.name],
        errors := st.errors ++ [e] }
    | .ok (node, newItems) =>
      { st with
        rangesByPackage :=
          (collectRange st.rangesByPackage item.name
            ⟨item.versionRange, item.dependent, item.depth⟩),
        processing := st.processing ++ [item.name],
        nodes := mapSet st.nodes item.name node,
        queue := st.queue ++ newItems }

/-- The phase-1 `while (queue.length > 0)` loop, with explicit fuel
(the JS loop terminates because each package is fetched at most
once). -/
def phase1Loop (reg : Registry) (maxDepth : Nat) :
    Nat → Phase1State → Phase1State
  | 0, st => st
  | fuel + 1, st =>
    match st.queue with
    | [] => st
    | item :: rest =>
      phase1Loop reg maxDepth fuel
        (phase1Step reg maxDepth { st with queue := rest } item)

/-- Phase 1 of `resolveRecursive`: the BFS from the root
dependencies. -/
def resolvePhase1 (reg : Registry) (maxDepth fuel : Nat)
    (rootDeps : List (String × RangeStr)) : Phase1State :=
  phase1Loop reg maxDepth fuel
    { queue := rootDeps.map (fun p =>
        { name := p.1, versionRange := p.2, depth := 0,
          dependent := "root", path := [] }),
      nodes := [], errors := [], rangesByPackage := [], processing := [] }

/-- `[...new Set(xs)]`: first-occurrence deduplication. -/
def jsDedup (l : List String) : List String :=
  l.foldl (fun acc x => if acc.contains x then acc else acc ++ [x]) []

/-- The tail of one phase-2 iteration (lines 335-392), after the
node's `dependents` have been replaced: re-resolve against all
collected ranges; on failure record a conflict and a
`no_satisfying_version` error; on a changed version re-fetch and
update the node; any fetch failure keeps the node as is. -/
def phase2Update (reg : Registry) (g1 : DependencyGraph) (name : String)
    (ranges : List CollectedRange) (node1 : DependencyNode) : DependencyGraph :=
  match splitUserPkg name with
  | none => g1
  | some (u, s) =>
    match reg.listVersions u s with
    | .thrown => g1
    | .badStatus => g1
    | .ok versions =>
      match findHighestSatisfying (ranges.map CollectedRange.range) versions with
      | none =>
        { g1 with
          conflicts := g1.conflicts ++
            [{ package := name,
               ranges := ranges.map (fun r => (r.dependent, r.range)),
               availableVersions := versions }],
          errors := g1.errors ++
            [{ type := .no_satisfying_version,
               package := name,
               message := "No version of " ++ name
                 ++ " satisfies all requirements",
               path := none }] }
      | some finalVersion =>
        if finalVersion == node1.version then g1
        else
          match reg.getVersion u s finalVersion with
          | .ok info =>
            { g1 with nodes :=
                (mapSet g1.nodes name
                  { node1 with
                    version := finalVersion,
                    downloadUrl := info.downloadUrl,
                    integrity := "sha256-"
                      ++ base64Encode (hexDecode info.checksum),
                    deprecated := info.deprecationMessage,
                    dependencies := info.manifest }) }
          | .thrown => g1
          | .badStatus => g1

/-- One phase-2 iteration over a `rangesByPackage` entry (lines
327-392): skip packages without a node, replace the node's
`dependents` with the deduplicated dependents of the collected
ranges, then finalise the version. -/
def phase2Step (reg : Registry) (g : DependencyGraph)
    (entry : String × List CollectedRange) : DependencyGraph :=
  match lookupNode g.nodes entry.1 with
  | none => g
  | some node =>
    phase2Update reg
      { g with nodes :=
          (mapSet g.nodes entry.1
            { node with
              dependents := jsDedup (entry.2.map CollectedRange.dependent) }) }
      entry.1 entry.2
      { node with dependents := jsDedup (entry.2.map CollectedRange.dependent) }

/-- `ResolutionResult` (lines 68-75, without the plain-data
`conflicts`/`errors` mirrors). -/
structure ResolutionResult where
  success : Bool
  graph : DependencyGraph
  installOrder : List String
deriving DecidableEq

/-- Phase 3 and the result record (lines 394-406): install order by
topological sort, `success` iff no errors and no conflicts. -/
def buildResult (g : DependencyGraph) : ResolutionResult :=
  { success := g.errors.isEmpty && g.conflicts.isEmpty,
    graph := g,
    installOrder := topologicalSort g }

/-- `resolveRecursive` (lines 138-406) over a registry environment:
phase-1 BFS, phase-2 finalisation over the collected ranges, phase-3
topological sort. -/
def resolveRecursive (reg : Registry) (maxDepth fuel : Nat)
    (rootDeps : List (String × RangeStr)) : ResolutionResult :=
  buildResult
    ((resolvePhase1 reg maxDepth fuel rootDeps).rangesByPackage.foldl
      (phase2Step reg)
      { nodes := (resolvePhase1 reg maxDepth fuel rootDeps).nodes,
        roots := rootDeps.map Prod.fst,
        errors := (resolvePhase1 reg maxDepth fuel rootDeps).errors,
        conflicts := [] })

/-- The phase-1 invariant behind the circular-dependency diagnostics:
every recorded `circular_dependency` error closes a duplicate-free
path with one repeated name, and every queued path is
duplicate-free. -/
def CircInv (st : Phase1State) : Prop :=
  (∀ e ∈ st.errors, e.type = ResolutionErrorType.circular_dependency →
    ∃ p, e.path = some (p ++ [e.package]) ∧ e.package ∈ p ∧ p.Nodup) ∧
  ∀ item ∈ st.queue, item.path.Nodup

/-- The one-version registry of the counterexample: skills
`@user/u/a`, `@user/u/b`, `@user/u/c`, each at version `1.0.0`, with
`a → {b, c}`, `b → {c}`, `c → {b}` (a diamond whose far corner is a
2-cycle). -/
def exReg : Registry :=
  { listVersions := fun u s =>
      if u = "u" then
        if s = "a" ∨ s = "b" ∨ s = "c" then
          .ok [.valid { major := 1, minor := 0, patch := 0, prerelease := [] }]
        else .badStatus
      else .badStatus,
    getVersion := fun u s v =>
      if u = "u" ∧ v = { major := 1, minor := 0, patch := 0, prerelease := [] } then
        if s = "a" then
          .ok { downloadUrl := "https://r/a", checksum := "00",
                manifest := [("@user/u/b", .star), ("@user/u/c", .star)],
                deprecationMessage := none }
        else if s = "b" then
          .ok { downloadUrl := "https://r/b", checksum := "00",
                manifest := [("@user/u/c", .star)], deprecationMessage := none }
        else if s = "c" then
          .ok { downloadUrl := "https://r/c", checksum := "00",
                manifest := [("@user/u/b", .star)], deprecationMessage := none }
        else .badStatus
      else .badStatus }

/-- Root dependencies of the counterexample: just `@user/u/a`. -/
def exRoots : List (String × RangeStr) := [("@user/u/a", .star)]

/-- The two-package registry of the direct 2-cycle: `a → {b}`,
`b → {a}`. -/
def exReg2 : Registry :=
  { listVersions := fun u s =>
      if u = "u" then
        if s = "a" ∨ s = "b" then
          .ok [.valid { major := 1, minor := 0, patch := 0, prerelease := [] }]
        else .badStatus
      else .badStatus,
    getVersion := fun u s v =>
      if u = "u" ∧ v = { major := 1, minor := 0, patch := 0, prerelease := [] } then
        if s = "a" then
          .ok { downloadUrl := "https://r/a", checksum := "00",
                manifest := [("@user/u/b", .star)], deprecationMessage := none }
        else if s = "b" then
          .ok { downloadUrl := "https://r/b", checksum := "00",
                manifest := [("@user/u/a", .star)], deprecationMessage := none }
        else .badStatus
      else .badStatus }

/- ===================================================================
   The add command (src/commands/add.ts)
   =================================================================== -/

/-- A validated package of phase 1 of `add`: registry (with the
username, skill name and effective root range
`versionRange || ^resolvedVersion`), GitHub, or local. -/
inductive ResolvedPkg where
  | registry (username : String) (name : String) (range : RangeStr)
  | github (specifier : String)
  | localPkg (specifier : String)
deriving DecidableEq

/-- The `p.type === "registry"` filter. -/
def isRegistryPkg : ResolvedPkg → Bool
  | .registry _ _ _ => true
  | _ => false

/-- JS object assignment `rootDeps[fullName] = range`: overwrite in
place, append new keys. -/
def recordSet (m : List (String × RangeStr)) (k : String) (v : RangeStr) :
    List (String × RangeStr) :=
  if m.any (fun p => p.1 == k) then
    m.map (fun p => if p.1 == k then (k, v) else p)
  else m ++ [(k, v)]

/-- The root-dependency record built from the validated registry
packages (lines 650-655): key `@user/<username>/<name>`, value the
effective range. -/
def registryRootDeps (l : List ResolvedPkg) : List (String × RangeStr) :=
  l.foldl (fun m p =>
    match p with
    | .registry u n r => recordSet m ("@user/" ++ u ++ "/" ++ n) r
    | _ => m) []

/-- A filesystem-writing step of phase 4 of `add`: each install call
writes the package into the project store and updates the lockfile
and the manifest. -/
inductive AddEvent where
  | installRegistry (name : String)
  | installGitHub (specifier : String)
  | installLocal (specifier : String)
deriving DecidableEq

/-- Phase 4 (lines 709-774): registry packages in install order
(skipping names without a node), then GitHub packages, then local
packages. -/
def installEvents (res : Option ResolutionResult) (resolved : List ResolvedPkg) :
    List AddEvent :=
  (match res with
   | some r => r.installOrder.filterMap (fun name =>
       match lookupNode r.graph.nodes name with
       | some _ => some (AddEvent.installRegistry name)
       | none => none)
   | none => []) ++
  resolved.filterMap (fun p =>
    match p with
    | .github s => some (AddEvent.installGitHub s)
    | _ => none) ++
  resolved.filterMap (fun p =>
    match p with
    | .localPkg s => some (AddEvent.installLocal s)
    | _ => none)

/-- The final summary exit (lines 776-786): with more than one
specifier and at least one failure, exit 1 (with installs modelled as
succeeding, the failures are the validation errors). -/
def addExit (validate : String → Option ResolvedPkg)
    (specifiers : List String) : Option Nat :=
  if specifiers.length > 1 ∧
      0 < specifiers.countP (fun s => (validate s).isNone) then
    some 1
  else none

/-- The control flow of `add` (lines 591-787) as an exit-code /
write-trace interpreter: phase-1 validation through the `validate`
environment, early exit 1 when nothing validated, recursive
resolution when registry packages are present with exit 1 on failure
BEFORE any install, then the phase-4 install writes.  Prompting,
logging and per-install runtime failures are not modelled. -/
def addModel (validate : String → Option ResolvedPkg) (reg : Registry)
    (maxDepth fuel : Nat) (specifiers : List String) :
    Option Nat × List AddEvent :=
  if (specifiers.filterMap validate).isEmpty then (some 1, [])
  else if ((specifiers.filterMap validate).filter isRegistryPkg).isEmpty then
    (addExit validate specifiers,
     installEvents none (specifiers.filterMap validate))
  else if (resolveRecursive reg maxDepth fuel
      (registryRootDeps (specifiers.filterMap validate))).success then
    (addExit validate specifiers,
     installEvents
       (some (resolveRecursive reg maxDepth fuel
         (registryRootDeps (specifiers.filterMap validate))))
       (specifiers.filterMap validate))
  else (some 1, [])

/-- A validation environment accepting only `@user/u/a` as a registry
package with range `*`. -/
def exValidate : String → Option ResolvedPkg := fun s =>
  if s = "@user/u/a" then some (.registry "u" "a" .star) else none

/- ===================================================================
   Order lemmas for the semver precedence relation
   =================================================================== -/

theorem pLt_trans {a b c : PreId} (h1 : pLt a b = true) (h2 : pLt b c = true) :
    pLt a c = true := by
  cases a <;> cases b <;> cases c <;> simp_all [pLt]
  · omega
  · exact lt_trans h1 h2

theorem pLt_connex {a b : PreId} (h1 : pLt a b = false) (h2 : pLt b a = false) :
    a = b := by
  cases a with
  | num n =>
    cases b with
    | num m =>
      simp only [pLt, decide_eq_false_iff_not, Nat.not_lt] at h1 h2
      exact congrArg PreId.num (Nat.le_antisymm h2 h1)
    | str t => simp [pLt] at h1
  | str s =>
    cases b with
    | num m => simp [pLt] at h2
    | str t =>
      simp only [pLt, decide_eq_false_iff_not] at h1 h2
      exact congrArg PreId.str (le_antisymm (not_lt.mp h2) (not_lt.mp h1))

theorem prerelLt_trans :
    ∀ {as bs cs : List PreId}, prerelLt as bs = true → prerelLt bs cs = true →
      prerelLt as cs = true
  | [], [], _ :: _, _, _ => rfl
  | [], _ :: _, _ :: _, _, _ => rfl
  | a :: as, b :: bs, c :: cs, h1, h2 => by
    simp only [prerelLt, Bool.or_eq_true, Bool.and_eq_true, beq_iff_eq] at h1 h2 ⊢
    rcases h1 with h1 | ⟨rfl, h1⟩
    · rcases h2 with h2 | ⟨rfl, _⟩
      · exact Or.inl (pLt_trans h1 h2)
      · exact Or.inl h1
    · rcases h2 with h2 | ⟨rfl, h2⟩
      · exact Or.inl h2
      · exact Or.inr ⟨rfl, prerelLt_trans h1 h2⟩

theorem prerelLt_connex :
    ∀ {as bs : List PreId}, prerelLt as bs = false → prerelLt bs as = false →
      as = bs
  | [], [], _, _ => rfl
  | [], _ :: _, h1, _ => by simp [prerelLt] at h1
  | _ :: _, [], _, h2 => by simp [prerelLt] at h2
  | a :: as, b :: bs, h1, h2 => by
    simp only [prerelLt, Bool.or_eq_false_iff, Bool.and_eq_false_iff,
      beq_eq_false_iff_ne, ne_eq] at h1 h2
    obtain ⟨hab, h1'⟩ := h1
    obtain ⟨hba, h2'⟩ := h2
    have hab' : a = b := pLt_connex hab hba
    subst hab'
    rcases h1' with h | h1'
    · exact absurd rfl h
    rcases h2' with h | h2'
    · exact absurd rfl h
    rw [prerelLt_connex h1' h2']

theorem preRankL_trans :
    ∀ {as bs cs : List PreId}, preRankL as bs = true → preRankL bs cs = true →
      preRankL as cs = true
  | [], bs, cs, h1, _ => by simp [preRankL] at h1
  | _ :: _, [], [], _, h2 => by simp [preRankL] at h2
  | _ :: _, [], _ :: _, _, h2 => by simp [preRankL] at h2
  | _ :: _, _ :: _, [], _, _ => rfl
  | a :: as, b :: bs, c :: cs, h1, h2 => by
    simp only [preRankL] at h1 h2 ⊢
    exact prerelLt_trans h1 h2

theorem preRankL_connex :
    ∀ {as bs : List PreId}, preRankL as bs = false → preRankL bs as = false →
      as = bs
  | [], [], _, _ => rfl
  | [], _ :: _, _, h2 => by simp [preRankL] at h2
  | _ :: _, [], h1, _ => by simp [preRankL] at h1
  | _ :: _, _ :: _, h1, h2 => by
    simp only [preRankL] at h1 h2
    exact prerelLt_connex h1 h2

theorem preRank_trans {a b c : Version} (h1 : preRank a b = true)
    (h2 : preRank b c = true) : preRank a c = true :=
  preRankL_trans h1 h2

theorem preRank_connex {a b : Version} (h1 : preRank a b = false)
    (h2 : preRank b a = false) : a.prerelease = b.prerelease :=
  preRankL_connex h1 h2

theorem vLt_trans {a b c : Version} (h1 : vLt a b = true) (h2 : vLt b c = true) :
    vLt a c = true := by
  simp only [vLt, Bool.or_eq_true, Bool.and_eq_true, beq_iff_eq,
    decide_eq_true_eq] at h1 h2 ⊢
  rcases h1 with h1 | ⟨e1, h1⟩
  · rcases h2 with h2 | ⟨e2, _⟩
    · exact Or.inl (Nat.lt_trans h1 h2)
    · exact Or.inl (e2 ▸ h1)
  · rcases h2 with h2 | ⟨e2, h2⟩
    · exact Or.inl (e1 ▸ h2)
    · refine Or.inr ⟨e1.trans e2, ?_⟩
      rcases h1 with h1 | ⟨f1, h1⟩
      · rcases h2 with h2 | ⟨f2, _⟩
        · exact Or.inl (Nat.lt_trans h1 h2)
        · exact Or.inl (f2 ▸ h1)
      · rcases h2 with h2 | ⟨f2, h2⟩
        · exact Or.inl (f1 ▸ h2)
        · refine Or.inr ⟨f1.trans f2, ?_⟩
          rcases h1 with h1 | ⟨g1, h1⟩
          · rcases h2 with h2 | ⟨g2, _⟩
            · exact Or.inl (Nat.lt_trans h1 h2)
            · exact Or.inl (g2 ▸ h1)
          · rcases h2 with h2 | ⟨g2, h2⟩
            · exact Or.inl (g1 ▸ h2)
            · exact Or.inr ⟨g1.trans g2, preRank_trans h1 h2⟩

theorem vLt_connex {a b : Version} (h1 : vLt a b = false) (h2 : vLt b a = false) :
    a = b := by
  simp only [vLt, Bool.or_eq_false_iff, Bool.and_eq_false_iff,
    beq_eq_false_iff_ne, ne_eq, decide_eq_false_iff_not, Nat.not_lt] at h1 h2
  obtain ⟨hM1, h1⟩ := h1
  obtain ⟨hM2, h2⟩ := h2
  have hM : a.major = b.major := Nat.le_antisymm hM2 hM1
  rcases h1 with h | h1; · exact absurd hM h
  rcases h2 with h | h2; · exact absurd hM.symm h
  obtain ⟨hm1, h1⟩ := h1
  obtain ⟨hm2, h2⟩ := h2
  have hm : a.minor = b.minor := Nat.le_antisymm hm2 hm1
  rcases h1 with h | h1; · exact absurd hm h
  rcases h2 with h | h2; · exact absurd hm.symm h
  obtain ⟨hp1, h1⟩ := h1
  obtain ⟨hp2, h2⟩ := h2
  have hp : a.patch = b.patch := Nat.le_antisymm hp2 hp1
  rcases h1 with h | h1; · exact absurd hp h
  rcases h2 with h | h2; · exact absurd hp.symm h
  have hpre : a.prerelease = b.prerelease := preRank_connex h1 h2
  cases a; cases b; simp_all

theorem vle_refl (a : Version) : vle a a = true := by
  simp [vle]

theorem vle_trans {a b c : Version} (h1 : vle a b = true) (h2 : vle b c = true) :
    vle a c = true := by
  simp only [vle, Bool.or_eq_true, beq_iff_eq] at h1 h2 ⊢
  rcases h1 with h1 | rfl
  · rcases h2 with h2 | rfl
    · exact Or.inl (vLt_trans h1 h2)
    · exact Or.inl h1
  · exact h2

theorem vle_total (a b : Version) : vle a b = true ∨ vle b a = true := by
  by_cases h1 : vLt a b = true
  · exact Or.inl (by simp [vle, h1])
  by_cases h2 : vLt b a = true
  · exact Or.inr (by simp [vle, h2])
  have : a = b := vLt_connex (by simpa using h1) (by simpa using h2)
  subst this
  exact Or.inl (vle_refl a)

instance : IsTotal Version vge :=
  ⟨fun a b => (vle_total b a).imp (fun h => h) (fun h => h)⟩

instance : IsTrans Version vge :=
  ⟨fun _ _ _ h1 h2 => vle_trans h2 h1⟩

/- ===================================================================
   C1: findHighestSatisfying
   =================================================================== -/

theorem find?_sorted_max {l : List Version} (hs : l.Sorted vge)
    {p : Version → Bool} {m : Version} (hf : l.find? p = some m) :
    ∀ v ∈ l, p v = true → vle v m = true := by
  induction l with
  | nil => simp at hf
  | cons a t ih =>
    rw [List.find?] at hf
    rcases List.sorted_cons.mp hs with ⟨ha, ht⟩
    cases hpa : p a with
    | true =>
      rw [hpa] at hf
      injection hf with hf
      subst hf
      intro v hv _
      rcases List.mem_cons.mp hv with rfl | hv
      · exact vle_refl v
      · exact ha v hv
    | false =>
      rw [hpa] at hf
      intro v hv hpv
      rcases List.mem_cons.mp hv with rfl | hv
      · rw [hpa] at hpv; exact absurd hpv (by simp)
      · exact ih ht hf v hv hpv

/-- C1 (counterexample).  With available version `1.0.0-1` (a valid
prerelease version) and the single range `*`, the claim's reading —
`*` matches every version — makes the satisfying set `{1.0.0-1}` with
semver-highest element `1.0.0-1`, yet `findHighestSatisfying` returns
`null`: node-semver's `satisfies` excludes prerelease versions from
`*`. -/
theorem findHighestSatisfying_claim_counterexample :
    findHighestSatisfying [RangeStr.star] [VersionStr.valid ⟨1, 0, 0, [PreId.num 1]⟩]
        = none ∧
      claimSatisfying [RangeStr.star] [VersionStr.valid ⟨1, 0, 0, [PreId.num 1]⟩]
        = [⟨1, 0, 0, [PreId.num 1]⟩] := by
  constructor <;> rfl

/-- C1 (amended).  `findHighestSatisfying(R, V)` returns the
semver-highest element of `{v ∈ V : v valid ∧ v satisfies every range
of R normalized}` — where an empty range, `latest` and `*` are
normalized to `*`, which under semver range semantics matches every
non-prerelease version and no prerelease version — and `null` exactly
when that set is empty; invalid version strings are never candidates
(they are removed before selection). -/
theorem findHighestSatisfying_highest (ranges : List RangeStr)
    (availableVersions : List VersionStr) :
    (findHighestSatisfying ranges availableVersions = none →
      satisfyingSet ranges availableVersions = []) ∧
    (∀ m, findHighestSatisfying ranges availableVersions = some m →
      m ∈ satisfyingSet ranges availableVersions ∧
        ∀ v ∈ satisfyingSet ranges availableVersions, vle v m = true) := by
  classical
  set L := availableVersions.filterMap semverValid with hL
  have hperm : List.Perm (List.insertionSort vge L) L := List.perm_insertionSort vge L
  have hsorted : (List.insertionSort vge L).Sorted vge := List.sorted_insertionSort vge L
  have hmem : ∀ v, v ∈ List.insertionSort vge L ↔ v ∈ L := fun _ => hperm.mem_iff
  constructor
  · intro hnone
    unfold findHighestSatisfying at hnone
    rw [← hL] at hnone
    by_cases hE : (List.insertionSort vge L).isEmpty
    · have h0 : List.insertionSort vge L = [] := List.isEmpty_iff.mp hE
      have hLnil : L = [] := by
        have h' := hperm.symm
        rw [h0] at h'
        exact h'.eq_nil
      simp [satisfyingSet, ← hL, hLnil]
    · rw [if_neg hE] at hnone
      have hno : ∀ v ∈ L, ¬ (satisfiesAll ranges v = true) := fun v hv => by
        have := List.find?_eq_none.mp hnone v ((hmem v).mpr hv)
        simpa using this
      simp only [satisfyingSet, ← hL]
      exact List.filter_eq_nil_iff.mpr (fun a ha => by simpa using hno a ha)
  · intro m hsome
    unfold findHighestSatisfying at hsome
    rw [← hL] at hsome
    by_cases hE : (List.insertionSort vge L).isEmpty
    · rw [if_pos hE] at hsome; cases hsome
    · rw [if_neg hE] at hsome
      have hpm : satisfiesAll ranges m = true := List.find?_some hsome
      have hmmem : m ∈ L := (hmem m).mp (List.mem_of_find?_eq_some hsome)
      constructor
      · simp only [satisfyingSet, ← hL]
        exact List.mem_filter.mpr ⟨hmmem, hpm⟩
      · intro v hv
        have hv' : v ∈ L ∧ satisfiesAll ranges v = true := by
          simpa [satisfyingSet, ← hL, List.mem_filter] using hv
        exact find?_sorted_max hsorted hsome v ((hmem v).mpr hv'.1) hv'.2

/-- C1 (witness).  A concrete run: among `1.2.3`, an invalid string
and `1.0.0`, with range `*`, the maximum `1.2.3` is selected and
dominates `1.0.0`. -/
theorem findHighestSatisfying_highest_witness :
    (⟨1, 2, 3, []⟩ : Version) ∈
        satisfyingSet [RangeStr.star]
          [VersionStr.valid ⟨1, 2, 3, []⟩, VersionStr.invalid "oops",
            VersionStr.valid ⟨1, 0, 0, []⟩] ∧
      vle ⟨1, 0, 0, []⟩ ⟨1, 2, 3, []⟩ = true := by
  have h := (findHighestSatisfying_highest [RangeStr.star]
    [VersionStr.valid ⟨1, 2, 3, []⟩, VersionStr.invalid "oops",
      VersionStr.valid ⟨1, 0, 0, []⟩]).2 ⟨1, 2, 3, []⟩ (by decide)
  exact ⟨h.1, h.2 ⟨1, 0, 0, []⟩ (by decide)⟩

/- ===================================================================
   C2: topologicalSort respects dependencies
   =================================================================== -/

theorem mem_of_lookupNode {nodes : List (String × DependencyNode)} {name : String}
    {node : DependencyNode} (h : lookupNode nodes name = some node) :
    (name, node) ∈ nodes := by
  unfold lookupNode at h
  cases hf : nodes.find? (fun p => p.1 == name) with
  | none => rw [hf] at h; cases h
  | some p =>
    rw [hf] at h
    injection h with h
    have hp := List.mem_of_find?_eq_some hf
    have hpn : p.1 = name := by
      have := List.find?_some hf
      simpa using this
    obtain ⟨pa, pb⟩ := p
    simp only at hpn h
    subst hpn
    subst h
    exact hp

theorem lookupNode_of_mem {nodes : List (String × DependencyNode)}
    (hkeys : (nodes.map Prod.fst).Nodup) {name : String} {node : DependencyNode}
    (h : (name, node) ∈ nodes) : lookupNode nodes name = some node := by
  induction nodes with
  | nil => cases h
  | cons p rest ih =>
    rcases List.mem_cons.mp h with h' | h'
    · subst h'
      simp [lookupNode, List.find?]
    · rw [List.map_cons] at hkeys
      have hk := List.nodup_cons.mp hkeys
      have hne : ¬(p.1 == name) = true := by
        simp only [beq_iff_eq]
        intro e
        exact hk.1 (e ▸ (List.mem_map.mpr ⟨(name, node), h', rfl⟩))
      have := ih hk.2 h'
      unfold lookupNode at this ⊢
      rw [List.find?]
      simp only [hne]
      exact this

theorem hasNode_iff {nodes : List (String × DependencyNode)} {name : String} :
    hasNode nodes name = true ↔ ∃ node, (name, node) ∈ nodes := by
  unfold hasNode
  rw [List.any_eq_true]
  constructor
  · rintro ⟨p, hp, hc⟩
    obtain ⟨pa, pb⟩ := p
    simp only [beq_iff_eq] at hc
    subst hc
    exact ⟨pb, hp⟩
  · rintro ⟨node, hn⟩
    exact ⟨(name, node), hn, by simp⟩

theorem inGraphDeps_nodup {g : DependencyGraph}
    (hdeps : ∀ p ∈ g.nodes, (depKeys p.2).Nodup) (x : String) :
    (inGraphDeps g x).Nodup := by
  unfold inGraphDeps
  cases hl : lookupNode g.nodes x with
  | none => simp
  | some node => exact List.Nodup.filter _ (hdeps (x, node) (mem_of_lookupNode hl))

theorem mem_inGraphDeps_sorted {g : DependencyGraph} {a : String} :
    ∀ b ∈ inGraphDeps g a, hasNode g.nodes b = true := by
  unfold inGraphDeps
  cases hl : lookupNode g.nodes a with
  | none => simp
  | some node =>
    intro b hb
    exact (List.mem_filter.mp hb).2

theorem mem_initDependents {g : DependencyGraph} {c x : String}
    (hkeys : (g.nodes.map Prod.fst).Nodup) :
    x ∈ initDependents g c ↔ c ∈ inGraphDeps g x := by
  unfold initDependents
  rw [List.mem_flatMap]
  constructor
  · rintro ⟨p, hp, hx⟩
    rw [List.mem_map] at hx
    obtain ⟨d, hd, rfl⟩ := hx
    rw [List.mem_filter] at hd
    obtain ⟨hdk, hcond⟩ := hd
    rw [Bool.and_eq_true, beq_iff_eq] at hcond
    obtain ⟨hhas, rfl⟩ := hcond
    obtain ⟨pa, pb⟩ := p
    unfold inGraphDeps
    rw [lookupNode_of_mem hkeys hp]
    exact List.mem_filter.mpr ⟨hdk, hhas⟩
  · intro hc
    unfold inGraphDeps at hc
    cases hl : lookupNode g.nodes x with
    | none => rw [hl] at hc; cases hc
    | some node =>
      rw [hl] at hc
      rw [List.mem_filter] at hc
      refine ⟨(x, node), mem_of_lookupNode hl, ?_⟩
      rw [List.mem_map]
      exact ⟨c, List.mem_filter.mpr ⟨hc.1, by simp [hc.2]⟩, rfl⟩

theorem processDependents_eq (sorted' : List String) (d : String → Int)
    (q : List String) (t : String) :
    processDependents sorted' (d, q) t
      = (fun n => if n == t then d t - 1 else d n,
          if d t - 1 == 0 && !(sorted'.contains t) then q ++ [t] else q) := by
  unfold processDependents
  split <;> rfl

theorem foldl_processDependents_deg (sorted' : List String) :
    ∀ (todo : List String), todo.Nodup →
      ∀ (d : String → Int) (q : List String) (a : String),
        (todo.foldl (processDependents sorted') (d, q)).1 a
          = if a ∈ todo then d a - 1 else d a := by
  intro todo
  induction todo with
  | nil => intro _ d q a; simp
  | cons t rest ih =>
    intro hnd d q a
    obtain ⟨htr, hrest⟩ := List.nodup_cons.mp hnd
    rw [List.foldl_cons, processDependents_eq, ih hrest]
    by_cases hat : a = t
    · subst hat
      simp [htr]
    · simp only [beq_iff_eq, if_neg hat, List.mem_cons]
      by_cases har : a ∈ rest
      · simp [har]
      · simp [har, hat]

theorem foldl_processDependents_mem (sorted' : List String) :
    ∀ (todo : List String), todo.Nodup →
      ∀ (d : String → Int) (q : List String) (x : String),
        (x ∈ (todo.foldl (processDependents sorted') (d, q)).2 ↔
          x ∈ q ∨ (x ∈ todo ∧ d x - 1 = 0 ∧ x ∉ sorted')) := by
  intro todo
  induction todo with
  | nil => intro _ d q x; simp
  | cons t rest ih =>
    intro hnd d q x
    obtain ⟨htr, hrest⟩ := List.nodup_cons.mp hnd
    rw [List.foldl_cons, processDependents_eq, ih hrest]
    constructor
    · rintro (hq1 | ⟨hxr, hdx, hxs⟩)
      · by_cases hc : (d t - 1 == 0 && !(sorted'.contains t)) = true
        · rw [if_pos hc] at hq1
          rcases List.mem_append.mp hq1 with h | h
          · exact Or.inl h
          · have hx : x = t := by simpa using h
            subst hx
            rw [Bool.and_eq_true, beq_iff_eq] at hc
            refine Or.inr ⟨List.mem_cons_self _ _, hc.1, ?_⟩
            have := hc.2
            simpa [List.elem_iff] using this
        · rw [if_neg hc] at hq1
          exact Or.inl hq1
      · have hxt : x ≠ t := fun e => htr (e ▸ hxr)
        refine Or.inr ⟨List.mem_cons_of_mem _ hxr, ?_, hxs⟩
        simpa [hxt] using hdx
    · rintro (hq | ⟨hxm, hdx, hxs⟩)
      · left
        by_cases hc : (d t - 1 == 0 && !(sorted'.contains t)) = true
        · rw [if_pos hc]
          exact List.mem_append_left _ hq
        · rw [if_neg hc]
          exact hq
      · rcases List.mem_cons.mp hxm with rfl | hxr
        · left
          have hcond : (d x - 1 == 0 && !(sorted'.contains x)) = true := by
            rw [Bool.and_eq_true, beq_iff_eq]
            refine ⟨hdx, ?_⟩
            simpa [List.elem_iff] using hxs
          rw [if_pos hcond]
          exact List.mem_append_right _ (by simp)
        · have hxt : x ≠ t := fun e => htr (e ▸ hxr)
          refine Or.inr ⟨hxr, ?_, hxs⟩
          simpa [hxt] using hdx

theorem foldl_processDependents_nodup (sorted' : List String) :
    ∀ (todo : List String), todo.Nodup →
      ∀ (d : String → Int) (q : List String),
        q.Nodup → (∀ x ∈ q, d x = 0) → (∀ x ∈ q, x ∉ todo) →
        (todo.foldl (processDependents sorted') (d, q)).2.Nodup := by
  intro todo
  induction todo with
  | nil => intro _ d q hqnd _ _; simpa using hqnd
  | cons t rest ih =>
    intro hnd d q hqnd hq0 hdisj
    obtain ⟨htr, hrest⟩ := List.nodup_cons.mp hnd
    rw [List.foldl_cons, processDependents_eq]
    have htq : t ∉ q := fun h => (hdisj t h) (List.mem_cons_self _ _)
    by_cases hc : (d t - 1 == 0 && !(sorted'.contains t)) = true
    · rw [if_pos hc]
      rw [Bool.and_eq_true, beq_iff_eq] at hc
      apply ih hrest
      · simp [List.nodup_append, htq, hqnd]
      · intro x hx
        rcases List.mem_append.mp hx with hxq | hxt
        · have hxt' : x ≠ t := fun e => htq (e ▸ hxq)
          simpa [hxt'] using hq0 x hxq
        · have hx : x = t := by simpa using hxt
          subst hx
          simpa using hc.1
      · intro x hx
        rcases List.mem_append.mp hx with hxq | hxt
        · exact fun hr => hdisj x hxq (List.mem_cons_of_mem _ hr)
        · have hx : x = t := by simpa using hxt
          subst hx
          exact htr
    · rw [if_neg hc]
      apply ih hrest
      · exact hqnd
      · intro x hxq
        have hxt' : x ≠ t := fun e => htq (e ▸ hxq)
        simpa [hxt'] using hq0 x hxq
      · exact fun x hxq hr => hdisj x hxq (List.mem_cons_of_mem _ hr)

theorem contains_eq_decide (l : List String) (b : String) :
    l.contains b = decide (b ∈ l) := by
  by_cases h : b ∈ l
  · simp [List.elem_iff, h]
  · simp only [decide_eq_false h]
    cases hc : l.contains b
    · rfl
    · exact absurd (List.elem_iff.mp hc) h

theorem filter_not_contains_append {L : List String} {c : String} (hcL : c ∉ L)
    (sorted : List String) :
    L.filter (fun b => !((sorted ++ [c]).contains b))
      = L.filter (fun b => !(sorted.contains b)) :=
  List.filter_congr fun b hb => by
    have hbc : b ≠ c := fun e => hcL (e ▸ hb)
    simp [contains_eq_decide, List.mem_append, hbc]

theorem filter_eq_const_length_le_one {L : List String} (hL : L.Nodup)
    (q : String → Bool) (c : String) :
    (L.filter (fun d => q d && d == c)).length ≤ 1 := by
  have hnd : (L.filter (fun d => q d && d == c)).Nodup := List.Nodup.filter _ hL
  have hall : ∀ d ∈ L.filter (fun d => q d && d == c), d = c := fun d hd => by
    have h := (List.mem_filter.mp hd).2
    rw [Bool.and_eq_true, beq_iff_eq] at h
    exact h.2
  match hF : L.filter (fun d => q d && d == c) with
  | [] => simp
  | [_] => simp
  | d1 :: d2 :: t =>
    rw [hF] at hnd hall
    have h1 : d1 = c := hall d1 (List.mem_cons_self _ _)
    have h2 : d2 = c := hall d2 (List.mem_cons_of_mem _ (List.mem_cons_self _ _))
    have hmem : d1 ∈ d2 :: t := (h1.trans h2.symm) ▸ List.mem_cons_self _ _
    exact absurd hmem (List.nodup_cons.mp hnd).1

theorem initDependents_nodup {g : DependencyGraph} {c : String}
    (hkeys : (g.nodes.map Prod.fst).Nodup)
    (hdeps : ∀ p ∈ g.nodes, (depKeys p.2).Nodup) :
    (initDependents g c).Nodup := by
  unfold initDependents
  have haux : ∀ (l : List (String × DependencyNode)),
      (l.map Prod.fst).Nodup → (∀ p ∈ l, (depKeys p.2).Nodup) →
      (l.flatMap (fun p => ((depKeys p.2).filter
        (fun d => hasNode g.nodes d && d == c)).map (fun _ => p.1))).Nodup := by
    intro l
    induction l with
    | nil => intro _ _; simp
    | cons p rest ih =>
      intro hk hd
      rw [List.map_cons] at hk
      obtain ⟨hp1, hk'⟩ := List.nodup_cons.mp hk
      rw [List.flatMap_cons]
      apply List.Nodup.append
      · have hle := filter_eq_const_length_le_one (hd p (List.mem_cons_self _ _))
          (fun d => hasNode g.nodes d) c
        match hF : (depKeys p.2).filter (fun d => hasNode g.nodes d && d == c) with
        | [] => simp
        | [_] => simp
        | d1 :: d2 :: t => rw [hF] at hle; simp at hle
      · exact ih hk' (fun q hq => hd q (List.mem_cons_of_mem _ hq))
      · intro x hx1 hx2
        rw [List.mem_map] at hx1
        obtain ⟨_, _, rfl⟩ := hx1
        rw [List.mem_flatMap] at hx2
        obtain ⟨q, hq, hxq⟩ := hx2
        rw [List.mem_map] at hxq
        obtain ⟨_, _, hxeq⟩ := hxq
        exact hp1 (hxeq ▸ List.mem_map.mpr ⟨q, hq, rfl⟩)
  exact haux g.nodes hkeys hdeps

theorem filter_length_remove {L : List String} (hL : L.Nodup) {c : String} (hc : c ∈ L)
    {p : String → Bool} (hpc : p c = true) :
    ((L.filter (fun b => p b && !(b == c))).length : Int)
      = ((L.filter p).length : Int) - 1 := by
  induction L with
  | nil => cases hc
  | cons a t ih =>
    obtain ⟨hat, htnd⟩ := List.nodup_cons.mp hL
    rcases List.mem_cons.mp hc with rfl | hct
    · have hfilter : t.filter (fun b => p b && !(b == c)) = t.filter p :=
        List.filter_congr fun b hb => by
          have hbc : b ≠ c := fun e => hat (e ▸ hb)
          simp [hbc]
      rw [List.filter_cons, List.filter_cons, hfilter]
      have hcond : (p c && !(c == c)) = false := by simp
      rw [hcond, hpc]
      simp only [Bool.false_eq_true, if_false, if_true, List.length_cons]
      push_cast
      omega
    · have hac : a ≠ c := fun e => hat (e ▸ hct)
      have ih' := ih htnd hct
      rw [List.filter_cons, List.filter_cons]
      by_cases hpa : p a = true
      · have hcond : (p a && !(a == c)) = true := by simp [hpa, hac]
        rw [hcond, hpa]
        simp only [if_true, List.length_cons]
        push_cast
        push_cast at ih'
        omega
      · have hpa' : p a = false := by simpa using hpa
        have hcond : (p a && !(a == c)) = false := by simp [hpa']
        rw [hcond, hpa']
        simp only [Bool.false_eq_true, if_false]
        exact ih'

theorem kahnStep_inv {g : DependencyGraph}
    (hkeys : (g.nodes.map Prod.fst).Nodup)
    (hdeps : ∀ p ∈ g.nodes, (depKeys p.2).Nodup)
    {inDeg : String → Int} {current : String} {rest sorted : List String}
    (hInv : KahnInv g inDeg (current :: rest) sorted) :
    KahnInv g
      (((initDependents g current).foldl
        (processDependents (sorted ++ [current])) (inDeg, rest)).1)
      (((initDependents g current).foldl
        (processDependents (sorted ++ [current])) (inDeg, rest)).2)
      (sorted ++ [current]) := by
  obtain ⟨hSnd, hQnd, hQ, hI, hS⟩ := hInv
  have hds_nodup : (initDependents g current).Nodup := initDependents_nodup hkeys hdeps
  have hds_mem : ∀ x, x ∈ initDependents g current ↔ current ∈ inGraphDeps g x :=
    fun _ => mem_initDependents hkeys
  have hcur := hQ current (List.mem_cons_self _ _)
  have hcur_not_sorted : current ∉ sorted := hcur.1
  have hcur_deps : ∀ b ∈ inGraphDeps g current, b ∈ sorted := hcur.2
  obtain ⟨hcur_notin_rest, hrest_nodup⟩ := List.nodup_cons.mp hQnd
  have hrest0 : ∀ x ∈ rest, inDeg x = 0 := fun x hx => by
    rw [hI x]
    have hall : (inGraphDeps g x).filter (fun b => !(sorted.contains b)) = [] :=
      List.filter_eq_nil_iff.mpr fun b hb => by
        have hbs : b ∈ sorted := (hQ x (List.mem_cons_of_mem _ hx)).2 b hb
        simp [contains_eq_decide, hbs]
    rw [hall]
    simp
  have hrest_not_ds : ∀ x ∈ rest, x ∉ initDependents g current := fun x hx hxds =>
    hcur_not_sorted
      ((hQ x (List.mem_cons_of_mem _ hx)).2 current ((hds_mem x).mp hxds))
  have hdeg := foldl_processDependents_deg (sorted ++ [current])
    (initDependents g current) hds_nodup inDeg rest
  have hmemQ := foldl_processDependents_mem (sorted ++ [current])
    (initDependents g current) hds_nodup inDeg rest
  have hndQ := foldl_processDependents_nodup (sorted ++ [current])
    (initDependents g current) hds_nodup inDeg rest hrest_nodup hrest0 hrest_not_ds
  have hI' : ∀ a,
      ((initDependents g current).foldl
        (processDependents (sorted ++ [current])) (inDeg, rest)).1 a
        = (((inGraphDeps g a).filter
            (fun b => !((sorted ++ [current]).contains b))).length : Int) := by
    intro a
    rw [hdeg a]
    by_cases hads : a ∈ initDependents g current
    · rw [if_pos hads, hI a]
      have hcin : current ∈ inGraphDeps g a := (hds_mem a).mp hads
      have hnd : (inGraphDeps g a).Nodup := inGraphDeps_nodup hdeps a
      have heq : (inGraphDeps g a).filter (fun b => !((sorted ++ [current]).contains b))
          = (inGraphDeps g a).filter
              (fun b => (!(sorted.contains b)) && !(b == current)) :=
        List.filter_congr fun b _ => by
          by_cases hbc : b = current
          · subst hbc; simp [contains_eq_decide, List.mem_append]
          · simp [contains_eq_decide, List.mem_append, hbc]
      rw [heq]
      rw [filter_length_remove hnd hcin (p := fun b => !(sorted.contains b))
        (by simp [contains_eq_decide, hcur_not_sorted])]
    · rw [if_neg hads, hI a]
      have hcnotin : current ∉ inGraphDeps g a := fun hcin => hads ((hds_mem a).mpr hcin)
      rw [filter_not_contains_append hcnotin]
  refine ⟨?_, hndQ, ?_, hI', ?_⟩
  · simp [List.nodup_append, hSnd, hcur_not_sorted]
  · intro x hx
    rcases (hmemQ x).mp hx with hxr | ⟨hxds, hdx0, hxs⟩
    · have h1 := hQ x (List.mem_cons_of_mem _ hxr)
      have hxc : x ≠ current := fun e => hcur_notin_rest (e ▸ hxr)
      refine ⟨?_, fun b hb => List.mem_append_left _ (h1.2 b hb)⟩
      intro hmem
      rcases List.mem_append.mp hmem with h | h
      · exact h1.1 h
      · exact hxc (by simpa using h)
    · refine ⟨hxs, fun b hb => ?_⟩
      have h0 : ((initDependents g current).foldl
          (processDependents (sorted ++ [current])) (inDeg, rest)).1 x = 0 := by
        rw [hdeg x, if_pos hxds, hdx0]
      have hlenInt := hI' x
      rw [h0] at hlenInt
      have hlen : ((inGraphDeps g x).filter
          (fun b => !((sorted ++ [current]).contains b))).length = 0 := by
        exact_mod_cast hlenInt.symm
      have hnilf := List.length_eq_zero.mp hlen
      by_contra hbs
      have hbf : b ∈ (inGraphDeps g x).filter
          (fun b => !((sorted ++ [current]).contains b)) :=
        List.mem_filter.mpr ⟨hb, by simp [contains_eq_decide, hbs]⟩
      rw [hnilf] at hbf
      cases hbf
  · intro a ha b hb
    rcases List.mem_append.mp ha with has | hac
    · have h1 := hS a has b hb
      refine ⟨List.mem_append_left _ h1.1, ?_⟩
      rw [List.indexOf_append_of_mem h1.1, List.indexOf_append_of_mem has]
      exact h1.2
    · have hac' : a = current := by simpa using hac
      subst hac'
      have hbs : b ∈ sorted := hcur_deps b hb
      refine ⟨List.mem_append_left _ hbs, ?_⟩
      rw [List.indexOf_append_of_mem hbs, List.indexOf_append_of_not_mem hcur_not_sorted]
      have hlt : sorted.indexOf b < sorted.length := List.indexOf_lt_length.mpr hbs
      simpa using hlt

theorem kahnLoop_respects {g : DependencyGraph}
    (hkeys : (g.nodes.map Prod.fst).Nodup)
    (hdeps : ∀ p ∈ g.nodes, (depKeys p.2).Nodup) :
    ∀ (fuel : Nat) (inDeg : String → Int) (queue sorted : List String),
      KahnInv g inDeg queue sorted →
      ∀ x ∈ kahnLoop g fuel inDeg queue sorted, ∀ b ∈ inGraphDeps g x,
        b ∈ kahnLoop g fuel inDeg queue sorted ∧
          (kahnLoop g fuel inDeg queue sorted).indexOf b
            < (kahnLoop g fuel inDeg queue sorted).indexOf x := by
  intro fuel
  induction fuel with
  | zero =>
    intro inDeg queue sorted hInv x hx b hb
    exact hInv.2.2.2.2 x hx b hb
  | succ n ih =>
    intro inDeg queue sorted hInv
    match queue with
    | [] =>
      intro x hx b hb
      exact hInv.2.2.2.2 x hx b hb
    | current :: rest =>
      have hstep := kahnStep_inv hkeys hdeps hInv
      have hunfold : kahnLoop g (n + 1) inDeg (current :: rest) sorted
          = kahnLoop g n
            (((initDependents g current).foldl
              (processDependents (sorted ++ [current])) (inDeg, rest)).1)
            (((initDependents g current).foldl
              (processDependents (sorted ++ [current])) (inDeg, rest)).2)
            (sorted ++ [current]) := rfl
      rw [hunfold]
      exact ih _ _ _ hstep

theorem kahnInv_init (g : DependencyGraph)
    (hkeys : (g.nodes.map Prod.fst).Nodup) :
    KahnInv g (fun n => initInDegree g n)
      ((g.nodes.map Prod.fst).filter (fun n => initInDegree g n == 0)) [] := by
  refine ⟨List.nodup_nil, List.Nodup.filter _ hkeys, ?_, ?_, by simp⟩
  · intro q hq
    refine ⟨by simp, fun b hb => ?_⟩
    have h0 : (initInDegree g q == 0) = true := (List.mem_filter.mp hq).2
    rw [beq_iff_eq] at h0
    unfold initInDegree at h0
    have hlen : (inGraphDeps g q).length = 0 := by exact_mod_cast h0
    rw [List.length_eq_zero.mp hlen] at hb
    cases hb
  · intro a
    simp [initInDegree]

/-- C2 (confirmed).  The order returned by `topologicalSort` respects
dependencies: whenever a node `a` of the graph appears in the returned
order and `b` is a dependency key of `a` that is present in the
graph's node map, `b` also appears in the order, strictly before `a`.
The `Nodup` hypotheses state that the JS `Map` keys and the JS
`Record` keys of each `dependencies` object are unique, which holds of
every `Map`/`Record` by construction. -/
theorem topologicalSort_respects_dependencies (g : DependencyGraph)
    (hkeys : (g.nodes.map Prod.fst).Nodup)
    (hdeps : ∀ p ∈ g.nodes, (depKeys p.2).Nodup) :
    ∀ a ∈ topologicalSort g, ∀ b ∈ inGraphDeps g a,
      b ∈ topologicalSort g ∧
        (topologicalSort g).indexOf b < (topologicalSort g).indexOf a := by
  have hdef : topologicalSort g
      = kahnLoop g (2 * (g.nodes.map (·.1)).length + 2)
        (fun n => initInDegree g n)
        ((g.nodes.map (·.1)).filter (fun n => initInDegree g n == 0)) [] := rfl
  rw [hdef]
  exact kahnLoop_respects hkeys hdeps _ _ _ _ (kahnInv_init g hkeys)

/-- C2 (witness).  In the two-node example, the dependency
`@user/u/a` of `@user/u/b` is installed strictly earlier. -/
theorem topologicalSort_respects_dependencies_witness :
    "@user/u/a" ∈ topologicalSort exGraph ∧
      (topologicalSort exGraph).indexOf "@user/u/a"
        < (topologicalSort exGraph).indexOf "@user/u/b" := by
  have h := topologicalSort_respects_dependencies exGraph (by decide) (by decide)
    "@user/u/b" (by decide) "@user/u/a" (by decide)
  exact ⟨h.1, h.2⟩

/- ===================================================================
   Base64 / hex lemmas; C10, C7, C6
   =================================================================== -/

theorem base64DecChar_encChar : ∀ n, n < 64 → base64DecChar (base64EncChar n) = some n := by
  decide

theorem base64DecChar_pad : base64DecChar '=' = none := by decide

theorem base64EncChar_no_newline :
    ∀ n, n < 64 → base64EncChar n ≠ '\n' ∧ base64EncChar n ≠ '\r' := by
  decide

theorem base64_roundtrip_chunks :
    ∀ bs : List Nat, (∀ b ∈ bs, b < 256) →
      base64DecodeSextets ((base64EncodeChunks bs).filterMap base64DecChar) = bs
  | [], _ => rfl
  | [b0], h => by
    have hb0 : b0 < 256 := h b0 (by simp)
    have e1 := base64DecChar_encChar (b0 / 4) (by omega)
    have e2 := base64DecChar_encChar ((b0 % 4) * 16) (by omega)
    simp only [base64EncodeChunks, List.filterMap_cons, e1, e2, base64DecChar_pad,
      List.filterMap_nil]
    simp only [base64DecodeSextets]
    have hval : b0 / 4 * 4 + b0 % 4 * 16 / 16 = b0 := by omega
    rw [hval]
  | [b0, b1], h => by
    have hb0 : b0 < 256 := h b0 (by simp)
    have hb1 : b1 < 256 := h b1 (by simp)
    have e1 := base64DecChar_encChar (b0 / 4) (by omega)
    have e2 := base64DecChar_encChar ((b0 % 4) * 16 + b1 / 16) (by omega)
    have e3 := base64DecChar_encChar ((b1 % 16) * 4) (by omega)
    simp only [base64EncodeChunks, List.filterMap_cons, e1, e2, e3, base64DecChar_pad,
      List.filterMap_nil]
    simp only [base64DecodeSextets]
    have hv0 : b0 / 4 * 4 + (b0 % 4 * 16 + b1 / 16) / 16 = b0 := by omega
    have hv1 : (b0 % 4 * 16 + b1 / 16) % 16 * 16 + b1 % 16 * 4 / 4 = b1 := by omega
    rw [hv0, hv1]
  | b0 :: b1 :: b2 :: rest, h => by
    have hb0 : b0 < 256 := h b0 (by simp)
    have hb1 : b1 < 256 := h b1 (by simp)
    have hb2 : b2 < 256 := h b2 (by simp)
    have ih := base64_roundtrip_chunks rest (fun b hb => h b (by simp [hb]))
    have e1 := base64DecChar_encChar (b0 / 4) (by omega)
    have e2 := base64DecChar_encChar ((b0 % 4) * 16 + b1 / 16) (by omega)
    have e3 := base64DecChar_encChar ((b1 % 16) * 4 + b2 / 64) (by omega)
    have e4 := base64DecChar_encChar (b2 % 64) (by omega)
    simp only [base64EncodeChunks, List.filterMap_cons, e1, e2, e3, e4]
    simp only [base64DecodeSextets]
    rw [ih]
    have hv0 : b0 / 4 * 4 + (b0 % 4 * 16 + b1 / 16) / 16 = b0 := by omega
    have hv1 : (b0 % 4 * 16 + b1 / 16) % 16 * 16 + (b1 % 16 * 4 + b2 / 64) / 4 = b1 := by
      omega
    have hv2 : (b1 % 16 * 4 + b2 / 64) % 4 * 64 + b2 % 64 = b2 := by omega
    rw [hv0, hv1, hv2]

theorem base64_roundtrip (bs : List Nat) (hb : ∀ b ∈ bs, b < 256) :
    base64Decode (base64Encode bs) = bs :=
  base64_roundtrip_chunks bs hb

theorem base64EncodeChunks_ne_nil :
    ∀ bs : List Nat, bs ≠ [] → base64EncodeChunks bs ≠ []
  | [], h => absurd rfl h
  | [_], _ => by simp [base64EncodeChunks]
  | [_, _], _ => by simp [base64EncodeChunks]
  | _ :: _ :: _ :: _, _ => by simp [base64EncodeChunks]

theorem base64EncodeChunks_no_newline :
    ∀ bs : List Nat, (∀ b ∈ bs, b < 256) →
      ∀ c ∈ base64EncodeChunks bs, c ≠ '\n' ∧ c ≠ '\r'
  | [], _ => by simp [base64EncodeChunks]
  | [b0], h => by
    have hb0 : b0 < 256 := h b0 (by simp)
    intro c hc
    simp only [base64EncodeChunks, List.mem_cons, List.not_mem_nil, or_false] at hc
    rcases hc with rfl | rfl | rfl | rfl
    · exact base64EncChar_no_newline _ (by omega)
    · exact base64EncChar_no_newline _ (by omega)
    · exact ⟨by decide, by decide⟩
    · exact ⟨by decide, by decide⟩
  | [b0, b1], h => by
    have hb0 : b0 < 256 := h b0 (by simp)
    have hb1 : b1 < 256 := h b1 (by simp)
    intro c hc
    simp only [base64EncodeChunks, List.mem_cons, List.not_mem_nil, or_false] at hc
    rcases hc with rfl | rfl | rfl | rfl
    · exact base64EncChar_no_newline _ (by omega)
    · exact base64EncChar_no_newline _ (by omega)
    · exact base64EncChar_no_newline _ (by omega)
    · exact ⟨by decide, by decide⟩
  | b0 :: b1 :: b2 :: rest, h => by
    have hb0 : b0 < 256 := h b0 (by simp)
    have hb1 : b1 < 256 := h b1 (by simp)
    have hb2 : b2 < 256 := h b2 (by simp)
    have ih := base64EncodeChunks_no_newline rest (fun b hb => h b (by simp [hb]))
    intro c hc
    simp only [base64EncodeChunks, List.mem_cons] at hc
    rcases hc with rfl | rfl | rfl | rfl | hc
    · exact base64EncChar_no_newline _ (by omega)
    · exact base64EncChar_no_newline _ (by omega)
    · exact base64EncChar_no_newline _ (by omega)
    · exact base64EncChar_no_newline _ (by omega)
    · exact ih c hc

theorem matchSha256Suffix_tag (t : String) (hne : t.toList ≠ [])
    (hnl : ∀ c ∈ t.toList, c ≠ '\n' ∧ c ≠ '\r') :
    matchSha256Suffix ("sha256-" ++ t) = some t := by
  show (if t.toList ≠ [] ∧ t.toList.all (fun c => c ≠ '\n' && c ≠ '\r')
    then some (String.mk t.toList) else none) = some t
  rw [if_pos]
  · rfl
  · exact ⟨hne, by
      rw [List.all_eq_true]
      intro c hc
      have h := hnl c hc
      simp [h.1, h.2]⟩

theorem matchSha256Suffix_some {s r : String} (hm : matchSha256Suffix s = some r) :
    r ≠ "" ∧ s = "sha256-" ++ r := by
  unfold matchSha256Suffix at hm
  split at hm
  case h_1 rest heq =>
    split at hm
    case isTrue hcond =>
      injection hm with hm
      subst hm
      constructor
      · intro he
        have : rest = [] := congrArg String.toList he
        exact hcond.1 this
      · have hdata : s.toList = ("sha256-" ++ String.mk rest).toList := by
          rw [heq]; rfl
        exact String.ext hdata
    case isFalse => cases hm
  case h_2 => cases hm

theorem readFromCache_err_eq (h : List Nat → List Nat)
    (fs : String → Option (List Nat)) (cacheDir integrity e : String)
    (hg : getCacheFilePath cacheDir integrity = Except.error e) :
    readFromCache h fs cacheDir integrity = (none, fs) := by
  unfold readFromCache
  rw [hg]

theorem readFromCache_miss_eq (h : List Nat → List Nat)
    (fs : String → Option (List Nat)) (cacheDir integrity cachePath : String)
    (hg : getCacheFilePath cacheDir integrity = Except.ok cachePath)
    (hf : fs cachePath = none) :
    readFromCache h fs cacheDir integrity = (none, fs) := by
  unfold readFromCache
  rw [hg]
  show (match fs cachePath with
    | none => ((none : Option (List Nat)), fs)
    | some data =>
      if ("sha256-" ++ base64Encode (h data)) != integrity then
        (none, fun p => if p = cachePath then none else fs p)
      else (some data, fs)) = (none, fs)
  rw [hf]

theorem readFromCache_hit_eq (h : List Nat → List Nat)
    (fs : String → Option (List Nat)) (cacheDir integrity cachePath : String)
    (data : List Nat)
    (hg : getCacheFilePath cacheDir integrity = Except.ok cachePath)
    (hf : fs cachePath = some data) :
    readFromCache h fs cacheDir integrity
      = if ("sha256-" ++ base64Encode (h data) != integrity) = true then
          (none, fun p => if p = cachePath then none else fs p)
        else (some data, fs) := by
  unfold readFromCache
  rw [hg]
  show (match fs cachePath with
    | none => ((none : Option (List Nat)), fs)
    | some data =>
      if ("sha256-" ++ base64Encode (h data)) != integrity then
        (none, fun p => if p = cachePath then none else fs p)
      else (some data, fs))
    = if ("sha256-" ++ base64Encode (h data) != integrity) = true then
        (none, fun p => if p = cachePath then none else fs p)
      else (some data, fs)
  rw [hf]

/-- C10 (confirmed).  With the SHA-256 digest abstracted as any
function `h` producing a non-empty byte list, (a) verification of a
buffer against its own computed integrity succeeds, and (b) for every
expected string that is not of the form `sha256-<non-empty suffix>`,
`verifyIntegrity` returns `false` on every buffer — the regex mismatch
branch returns `false` rather than raising, so verification is total
over arbitrary string inputs. -/
theorem verifyIntegrity_roundtrip_total (h : List Nat → List Nat) :
    (∀ data : List Nat, h data ≠ [] → (∀ b ∈ h data, b < 256) →
      verifyIntegrity h data (calculateIntegrity h data) = true) ∧
    (∀ (data : List Nat) (s : String),
      (¬ ∃ rest : String, rest ≠ "" ∧ s = "sha256-" ++ rest) →
      verifyIntegrity h data s = false) := by
  constructor
  · intro data hne hb
    have h1 : (base64Encode (h data)).toList ≠ [] :=
      base64EncodeChunks_ne_nil (h data) hne
    have h2 : ∀ c ∈ (base64Encode (h data)).toList, c ≠ '\n' ∧ c ≠ '\r' :=
      fun c hc => base64EncodeChunks_no_newline (h data) hb c hc
    unfold verifyIntegrity calculateIntegrity
    rw [matchSha256Suffix_tag (base64Encode (h data)) h1 h2]
    exact beq_self_eq_true _
  · intro data s hno
    unfold verifyIntegrity
    cases hm : matchSha256Suffix s with
    | none => rfl
    | some rest =>
      exact absurd ⟨rest, (matchSha256Suffix_some hm).1, (matchSha256Suffix_some hm).2⟩ hno

/-- C10 (witness).  A concrete digest function and buffer; the
malformed expected string `md5-xyz` is rejected with `false`. -/
theorem verifyIntegrity_roundtrip_total_witness :
    verifyIntegrity (fun _ => [7, 200]) [1, 2, 3]
        (calculateIntegrity (fun _ => [7, 200]) [1, 2, 3]) = true ∧
      verifyIntegrity (fun _ => [7, 200]) [1, 2, 3] "md5-xyz" = false := by
  constructor
  · exact (verifyIntegrity_roundtrip_total (fun _ => [7, 200])).1 [1, 2, 3]
      (by decide) (by decide)
  · refine (verifyIntegrity_roundtrip_total (fun _ => [7, 200])).2 [1, 2, 3] "md5-xyz" ?_
    rintro ⟨rest, _, he⟩
    have hl : ('m' :: 'd' :: '5' :: '-' :: 'x' :: 'y' :: 'z' :: [] : List Char)
        = 's' :: 'h' :: 'a' :: '2' :: '5' :: '6' :: '-' :: rest.toList :=
      congrArg String.toList he
    injection hl with h1 _
    exact absurd h1 (by decide)

/-- C7 (confirmed).  For every non-empty digest byte list, the cache
file path computed from `sha256-<base64 of the digest>` is
`<cacheDir>/sha256-<lowercase hex of the same digest bytes>.tgz`: the
code's `Buffer.from(base64, "base64").toString("hex")` recovers
exactly the bytes the base64 suffix encodes.  The derivation is a
pure function of the integrity string, so equal integrity strings map
to the same cache file. -/
theorem getCacheFilePath_hex_of_base64 (cacheDir : String) (bs : List Nat)
    (hne : bs ≠ []) (hb : ∀ b ∈ bs, b < 256) :
    getCacheFilePath cacheDir ("sha256-" ++ base64Encode bs)
      = Except.ok (cacheDir ++ "/" ++ ("sha256-" ++ hexEncode bs ++ ".tgz")) := by
  have h1 : (base64Encode bs).toList ≠ [] := base64EncodeChunks_ne_nil bs hne
  have h2 : ∀ c ∈ (base64Encode bs).toList, c ≠ '\n' ∧ c ≠ '\r' :=
    fun c hc => base64EncodeChunks_no_newline bs hb c hc
  unfold getCacheFilePath
  rw [matchSha256Suffix_tag (base64Encode bs) h1 h2]
  show Except.ok (cacheDir ++ "/"
      ++ ("sha256-" ++ hexEncode (base64Decode (base64Encode bs)) ++ ".tgz")) = _
  rw [base64_roundtrip bs hb]

/-- C7 (witness).  A concrete three-byte digest. -/
theorem getCacheFilePath_hex_of_base64_witness :
    getCacheFilePath ".pspm/cache" ("sha256-" ++ base64Encode [0, 255, 16])
      = Except.ok (".pspm/cache" ++ "/" ++ ("sha256-" ++ hexEncode [0, 255, 16] ++ ".tgz")) :=
  getCacheFilePath_hex_of_base64 ".pspm/cache" [0, 255, 16] (by decide) (by decide)

/-- C6 (confirmed).  A cache read (a) returns bytes only when the
recomputed integrity string equals the requested one, and then those
bytes are exactly the cache file's contents and nothing is deleted;
(b) deletes the cache file and returns a miss when the recomputed
integrity differs; (c) returns a miss leaving the filesystem untouched
when the integrity string is malformed (the `getCacheFilePath` throw is
caught by the surrounding try/catch) or when the file cannot be
opened or read.  `readFromCache` is a total function, so a cache read
never fails the caller. -/
theorem readFromCache_spec (h : List Nat → List Nat)
    (fs : String → Option (List Nat)) (cacheDir integrity : String) :
    (∀ data, (readFromCache h fs cacheDir integrity).1 = some data →
      "sha256-" ++ base64Encode (h data) = integrity ∧
        (readFromCache h fs cacheDir integrity).2 = fs ∧
        ∃ cachePath, getCacheFilePath cacheDir integrity = Except.ok cachePath ∧
          fs cachePath = some data) ∧
    (∀ cachePath data, getCacheFilePath cacheDir integrity = Except.ok cachePath →
      fs cachePath = some data →
      "sha256-" ++ base64Encode (h data) ≠ integrity →
      (readFromCache h fs cacheDir integrity).1 = none ∧
        (readFromCache h fs cacheDir integrity).2 cachePath = none) ∧
    (∀ e, getCacheFilePath cacheDir integrity = Except.error e →
      readFromCache h fs cacheDir integrity = (none, fs)) ∧
    (∀ cachePath, getCacheFilePath cacheDir integrity = Except.ok cachePath →
      fs cachePath = none → readFromCache h fs cacheDir integrity = (none, fs)) := by
  refine ⟨?_, ?_, ?_, ?_⟩
  · intro data hsome
    cases hg : getCacheFilePath cacheDir integrity with
    | error e =>
      rw [readFromCache_err_eq h fs cacheDir integrity e hg] at hsome
      simp at hsome
    | ok cachePath =>
      cases hf : fs cachePath with
      | none =>
        rw [readFromCache_miss_eq h fs cacheDir integrity cachePath hg hf] at hsome
        simp at hsome
      | some d =>
        rw [readFromCache_hit_eq h fs cacheDir integrity cachePath d hg hf] at hsome
        by_cases hmis : (("sha256-" ++ base64Encode (h d)) != integrity) = true
        · rw [if_pos hmis] at hsome
          simp at hsome
        · rw [if_neg hmis] at hsome
          have hd : d = data := by simpa using hsome
          subst hd
          refine ⟨by simpa using hmis, ?_, cachePath, rfl, hf⟩
          rw [readFromCache_hit_eq h fs cacheDir integrity cachePath d hg hf, if_neg hmis]
  · intro cachePath data hg hf hmis
    rw [readFromCache_hit_eq h fs cacheDir integrity cachePath data hg hf,
      if_pos (by simpa using hmis)]
    exact ⟨rfl, by simp⟩
  · intro e hg
    exact readFromCache_err_eq h fs cacheDir integrity e hg
  · intro cachePath hg hf
    exact readFromCache_miss_eq h fs cacheDir integrity cachePath hg hf

/-- C6 (witness).  A concrete cache hit: digest `[1]`, integrity
`sha256-AQ==`, one cache file holding `[1]`. -/
theorem readFromCache_spec_witness :
    "sha256-" ++ base64Encode ((fun _ => [1]) ([1] : List Nat))
        = "sha256-" ++ base64Encode [1] ∧
      (readFromCache (fun _ => [1])
        (fun p => if p = ".pspm/cache/sha256-01.tgz" then some [1] else none)
        ".pspm/cache" ("sha256-" ++ base64Encode [1])).2
        = (fun p => if p = ".pspm/cache/sha256-01.tgz" then some [1] else none) ∧
      ∃ cachePath,
        getCacheFilePath ".pspm/cache" ("sha256-" ++ base64Encode [1])
            = Except.ok cachePath ∧
          (fun p : String => if p = ".pspm/cache/sha256-01.tgz" then some [1] else none)
            cachePath = some [1] :=
  (readFromCache_spec (fun _ => [1])
    (fun p => if p = ".pspm/cache/sha256-01.tgz" then some [1] else none)
    ".pspm/cache" ("sha256-" ++ base64Encode [1])).1 [1] (by decide)

/- ===================================================================
   C8: symlink reconciliation; C9: local validation; C5: lockfile writer
   =================================================================== -/

/-- C8 (confirmed).  Reconciliation of one agent symlink: (a) if
nothing exists at the path, the symlink is created; (b) if a symlink
with the same relative target exists, nothing changes and no warning
is emitted; (c) if a symlink with a different target exists, it ends
up replaced by one with the correct target; (d) if a regular file or
directory exists, the filesystem is untouched and a warning is
emitted. -/
theorem createSymlink_reconciles (fs : String → Option FSEntry)
    (symlinkPath target skillName : String) :
    (fs symlinkPath = none →
      createSymlink fs symlinkPath target skillName
        = (fun p => if p = symlinkPath then some (FSEntry.symlinkTo target) else fs p,
            [])) ∧
    (fs symlinkPath = some (FSEntry.symlinkTo target) →
      createSymlink fs symlinkPath target skillName = (fs, [])) ∧
    (∀ t, t ≠ target → fs symlinkPath = some (FSEntry.symlinkTo t) →
      createSymlink fs symlinkPath target skillName
        = (fun p => if p = symlinkPath then some (FSEntry.symlinkTo target) else fs p,
            [])) ∧
    (fs symlinkPath = some FSEntry.file ∨ fs symlinkPath = some FSEntry.dir →
      createSymlink fs symlinkPath target skillName
        = (fs, ["Warning: File exists at symlink path for \"" ++ skillName
            ++ "\", skipping: " ++ symlinkPath])) := by
  refine ⟨?_, ?_, ?_, ?_⟩
  · intro h
    unfold createSymlink
    rw [h]
  · intro h
    unfold createSymlink
    rw [h]
    show (if target = target then _ else _) = _
    rw [if_pos rfl]
  · intro t ht h
    unfold createSymlink
    rw [h]
    show (if t = target then _ else _) = _
    rw [if_neg ht]
  · intro h
    rcases h with h | h <;> (unfold createSymlink; rw [h])

/-- C8 (witness).  Creating a fresh symlink on an empty filesystem. -/
theorem createSymlink_reconciles_witness :
    createSymlink (fun _ => none) ".claude/skills/a" "../../.pspm/skills/u/a" "a"
      = (fun p => if p = ".claude/skills/a"
          then some (FSEntry.symlinkTo "../../.pspm/skills/u/a")
          else (fun _ => none : String → Option FSEntry) p, []) :=
  (createSymlink_reconciles (fun _ => none) ".claude/skills/a"
    "../../.pspm/skills/u/a" "a").1 rfl

theorem validateLocalPackage_none_eq (fsKind : String → Option FileKind)
    (cwd specifier : String)
    (hk : fsKind (resolvePath cwd (parseLocalPath specifier)) = none) :
    validateLocalPackage fsKind cwd specifier
      = Except.error ("Directory not found: " ++ resolvePath cwd (parseLocalPath specifier)
          ++ "\n  Check that the path exists and is accessible.") := by
  simp only [validateLocalPackage]
  rw [hk]

theorem validateLocalPackage_file_eq (fsKind : String → Option FileKind)
    (cwd specifier : String)
    (hk : fsKind (resolvePath cwd (parseLocalPath specifier)) = some FileKind.file) :
    validateLocalPackage fsKind cwd specifier
      = Except.error ("Path is not a directory: "
          ++ resolvePath cwd (parseLocalPath specifier)) := by
  simp only [validateLocalPackage]
  rw [hk]

theorem validateLocalPackage_dir_eq (fsKind : String → Option FileKind)
    (cwd specifier : String)
    (hk : fsKind (resolvePath cwd (parseLocalPath specifier)) = some FileKind.dir) :
    validateLocalPackage fsKind cwd specifier
      = if (!(fsKind (resolvePath cwd (parseLocalPath specifier) ++ "/SKILL.md")).isSome
            && !(fsKind (resolvePath cwd (parseLocalPath specifier)
              ++ "/pspm.json")).isSome) = true
        then Except.error ("Not a valid skill directory: "
          ++ resolvePath cwd (parseLocalPath specifier)
          ++ "\n  Missing both SKILL.md and pspm.json. At least one is required.")
        else Except.ok
          { specifier := specifier,
            normalizedSpecifier := normalizeToFileSpecifier (parseLocalPath specifier),
            path := parseLocalPath specifier,
            resolvedPath := resolvePath cwd (parseLocalPath specifier),
            name := basename (resolvePath cwd (parseLocalPath specifier)) } := by
  simp only [validateLocalPackage]
  rw [hk]

/-- C9 (confirmed).  `validateLocalPackage` of `add.ts` succeeds
exactly when the specifier's path resolves to an existing directory
containing at least one of `SKILL.md` or `pspm.json`; on success the
record carries the resolved absolute path, the stripped path, the
normalised `file:` specifier, and the basename as the skill name —
validation fails for no other reason.  Validation only stats paths:
the filesystem model carries no contents, so no payload bytes are
read and no integrity is computed for local skills. -/
theorem validateLocalPackage_spec (fsKind : String → Option FileKind)
    (cwd specifier : String) :
    ((∃ r, validateLocalPackage fsKind cwd specifier = Except.ok r) ↔
      (fsKind (resolvePath cwd (parseLocalPath specifier)) = some FileKind.dir ∧
        ((fsKind (resolvePath cwd (parseLocalPath specifier) ++ "/SKILL.md")).isSome
          ∨ (fsKind (resolvePath cwd (parseLocalPath specifier)
            ++ "/pspm.json")).isSome))) ∧
    (∀ r, validateLocalPackage fsKind cwd specifier = Except.ok r →
      r.resolvedPath = resolvePath cwd (parseLocalPath specifier) ∧
        r.name = basename (resolvePath cwd (parseLocalPath specifier)) ∧
        r.path = parseLocalPath specifier ∧
        r.normalizedSpecifier = normalizeToFileSpecifier (parseLocalPath specifier)) := by
  by_cases hk : fsKind (resolvePath cwd (parseLocalPath specifier)) = some FileKind.dir
  · rw [validateLocalPackage_dir_eq fsKind cwd specifier hk]
    by_cases hcond : (!(fsKind (resolvePath cwd (parseLocalPath specifier)
          ++ "/SKILL.md")).isSome
        && !(fsKind (resolvePath cwd (parseLocalPath specifier)
          ++ "/pspm.json")).isSome) = true
    · rw [if_pos hcond]
      rw [Bool.and_eq_true, Bool.not_eq_true', Bool.not_eq_true'] at hcond
      constructor
      · constructor
        · rintro ⟨r, hr⟩
          cases hr
        · rintro ⟨_, h2 | h2⟩
          · rw [hcond.1] at h2; cases h2
          · rw [hcond.2] at h2; cases h2
      · intro r hr
        cases hr
    · rw [if_neg hcond]
      have hcond' : (fsKind (resolvePath cwd (parseLocalPath specifier)
            ++ "/SKILL.md")).isSome = true
          ∨ (fsKind (resolvePath cwd (parseLocalPath specifier)
            ++ "/pspm.json")).isSome = true := by
        by_cases h1 : (fsKind (resolvePath cwd (parseLocalPath specifier)
            ++ "/SKILL.md")).isSome = true
        · exact Or.inl h1
        · by_cases h2 : (fsKind (resolvePath cwd (parseLocalPath specifier)
              ++ "/pspm.json")).isSome = true
          · exact Or.inr h2
          · exfalso
            apply hcond
            have ha : (fsKind (resolvePath cwd (parseLocalPath specifier)
                ++ "/SKILL.md")).isSome = false := by simpa using h1
            have hb : (fsKind (resolvePath cwd (parseLocalPath specifier)
                ++ "/pspm.json")).isSome = false := by simpa using h2
            rw [ha, hb]
            rfl
      constructor
      · constructor
        · intro _
          exact ⟨hk, hcond'⟩
        · intro _
          exact ⟨_, rfl⟩
      · intro r hr
        injection hr with hr
        subst hr
        exact ⟨rfl, rfl, rfl, rfl⟩
  · have hgoal2 : ∀ r, validateLocalPackage fsKind cwd specifier ≠ Except.ok r := by
      intro r
      cases hk2 : fsKind (resolvePath cwd (parseLocalPath specifier)) with
      | none =>
        rw [validateLocalPackage_none_eq fsKind cwd specifier hk2]
        intro h
        cases h
      | some k =>
        cases k with
        | file =>
          rw [validateLocalPackage_file_eq fsKind cwd specifier hk2]
          intro h
          cases h
        | dir => exact absurd hk2 hk
    constructor
    · constructor
      · rintro ⟨r, hr⟩
        exact absurd hr (hgoal2 r)
      · rintro ⟨h1, _⟩
        exact absurd h1 hk
    · intro r hr
      exact absurd hr (hgoal2 r)

/-- C9 (witness).  A directory `/home/u/skill` holding only
`SKILL.md`, added as `file:/home/u/skill`. -/
theorem validateLocalPackage_spec_witness :
    (∃ r, validateLocalPackage
        (fun p => if p = "/home/u/skill" then some FileKind.dir
          else if p = "/home/u/skill/SKILL.md" then some FileKind.file else none)
        "/cwd" "file:/home/u/skill" = Except.ok r) ∧
      ∀ r, validateLocalPackage
          (fun p => if p = "/home/u/skill" then some FileKind.dir
            else if p = "/home/u/skill/SKILL.md" then some FileKind.file else none)
          "/cwd" "file:/home/u/skill" = Except.ok r →
        r.name = basename (resolvePath "/cwd" (parseLocalPath "file:/home/u/skill")) := by
  have h := validateLocalPackage_spec
    (fun p => if p = "/home/u/skill" then some FileKind.dir
      else if p = "/home/u/skill/SKILL.md" then some FileKind.file else none)
    "/cwd" "file:/home/u/skill"
  exact ⟨h.1.mpr (by decide), fun r hr => ((h.2 r hr).2).1⟩

/-- Whatever the input, the serialised document has no `localPackages`
section. -/
theorem writeLockfileDoc_drops_local (lf : PspmLockfile) :
    (writeLockfileDoc lf).localPackages = none := by
  simp only [writeLockfileDoc]
  split
  · split <;> rfl
  · rfl

/-- Whatever the input, the serialised document's version is 3 or 4. -/
theorem writeLockfileDoc_version_le (lf : PspmLockfile) :
    (writeLockfileDoc lf).lockfileVersion ≤ 4 := by
  simp only [writeLockfileDoc]
  split
  · split
    · split
      · exact Nat.le_refl 4
      · exact Nat.le_succ 3
    · split
      · exact Nat.le_refl 4
      · exact Nat.le_succ 3
  · split
    · exact Nat.le_refl 4
    · exact Nat.le_succ 3

/-- C5 (code bug).  The visible `writeLockfile` never emits version 5
and silently drops a populated `localPackages` section: on a lockfile
carrying a local package it writes version 3 with `localPackages`
absent, and in general the written document always has
`localPackages = none` and `lockfileVersion ≤ 4`, contradicting the
documented minimum-version rule for the v5 `localPackages` feature. -/
theorem writeLockfile_claim_divergence :
    exLockfileV5.localPackages ≠ none ∧
    (writeLockfileDoc exLockfileV5).localPackages = none ∧
    (writeLockfileDoc exLockfileV5).lockfileVersion = 3 ∧
    ∀ lf : PspmLockfile, (writeLockfileDoc lf).localPackages = none ∧
      (writeLockfileDoc lf).lockfileVersion ≤ 4 :=
  ⟨by decide, by decide, by decide,
    fun lf => ⟨writeLockfileDoc_drops_local lf, writeLockfileDoc_version_le lf⟩⟩

/-- Queue items produced by a successful fetch all extend the fetched
item's path by its name. -/
theorem fetchOutcome_ok_paths {reg : Registry} {item : QueueItem}
    {node : DependencyNode} {items : List QueueItem}
    (h : fetchOutcome reg item = Except.ok (node, items)) :
    ∀ q ∈ items, q.path = item.path ++ [item.name] := by
  unfold fetchOutcome at h
  split at h
  · exact Except.noConfusion h
  · split at h
    · exact Except.noConfusion h
    · exact Except.noConfusion h
    · split at h
      · exact Except.noConfusion h
      · split at h
        · exact Except.noConfusion h
        · split at h
          · exact Except.noConfusion h
          · exact Except.noConfusion h
          · rw [Except.ok.injEq, Prod.mk.injEq] at h
            obtain ⟨-, hi⟩ := h
            subst hi
            intro q hq
            rw [List.mem_map] at hq
            obtain ⟨d, -, rfl⟩ := hq
            rfl

/-- Errors produced by the fetch are never circular-dependency
diagnostics. -/
theorem fetchOutcome_error_not_circular {reg : Registry} {item : QueueItem}
    {e : ResolutionError} (h : fetchOutcome reg item = Except.error e) :
    e.type ≠ ResolutionErrorType.circular_dependency := by
  unfold fetchOutcome at h
  split at h
  · rw [Except.error.injEq] at h
    subst h
    exact fun hc => ResolutionErrorType.noConfusion hc
  · split at h
    · rw [Except.error.injEq] at h
      subst h
      exact fun hc => ResolutionErrorType.noConfusion hc
    · rw [Except.error.injEq] at h
      subst h
      exact fun hc => ResolutionErrorType.noConfusion hc
    · split at h
      · rw [Except.error.injEq] at h
        subst h
        exact fun hc => ResolutionErrorType.noConfusion hc
      · split at h
        · rw [Except.error.injEq] at h
          subst h
          exact fun hc => ResolutionErrorType.noConfusion hc
        · split at h
          · rw [Except.error.injEq] at h
            subst h
            exact fun hc => ResolutionErrorType.noConfusion hc
          · rw [Except.error.injEq] at h
            subst h
            exact fun hc => ResolutionErrorType.noConfusion hc
          · exact Except.noConfusion h

/-- One phase-1 step preserves the circular-diagnostic invariant,
provided the dequeued item's path is duplicate-free. -/
theorem phase1Step_inv (reg : Registry) (maxDepth : Nat) (st : Phase1State)
    (item : QueueItem) (h : CircInv st) (hitem : item.path.Nodup) :
    CircInv (phase1Step reg maxDepth st item) := by
  unfold phase1Step
  split
  · refine ⟨?_, h.2⟩
    intro e he hc
    rcases List.mem_append.mp he with he | he
    · exact h.1 e he hc
    · rw [List.mem_singleton] at he
      subst he
      exact ResolutionErrorType.noConfusion hc
  · split
    · rename_i hcirc
      refine ⟨?_, h.2⟩
      intro e he hc
      rcases List.mem_append.mp he with he | he
      · exact h.1 e he hc
      · rw [List.mem_singleton] at he
        subst he
        exact ⟨item.path, rfl, List.elem_iff.mp hcirc, hitem⟩
    · rename_i hnc
      split
      · exact ⟨h.1, h.2⟩
      · split
        · rename_i e heq
          refine ⟨?_, h.2⟩
          intro e' he' hc
          rcases List.mem_append.mp he' with he' | he'
          · exact h.1 e' he' hc
          · rw [List.mem_singleton] at he'
            subst he'
            exact absurd hc (fetchOutcome_error_not_circular heq)
        · rename_i node newItems heq
          refine ⟨h.1, ?_⟩
          intro q hq
          rcases List.mem_append.mp hq with hq | hq
          · exact h.2 q hq
          · have hp : q.path = item.path ++ [item.name] :=
              fetchOutcome_ok_paths heq q hq
            rw [hp]
            refine List.Nodup.append hitem (List.nodup_singleton _) ?_
            intro x hx hx'
            rw [List.mem_singleton] at hx'
            subst hx'
            exact hnc (List.elem_iff.mpr hx)

/-- The phase-1 loop preserves the circular-diagnostic invariant at
every fuel. -/
theorem phase1Loop_inv (reg : Registry) (maxDepth : Nat) (fuel : Nat)
    (st : Phase1State) (h : CircInv st) :
    CircInv (phase1Loop reg maxDepth fuel st) := by
  induction fuel generalizing st with
  | zero => exact h
  | succ n ih =>
    simp only [phase1Loop]
    split
    · exact h
    · rename_i item rest heq
      apply ih
      apply phase1Step_inv
      · exact ⟨h.1, fun q hq => h.2 q (by rw [heq]; exact List.mem_cons_of_mem _ hq)⟩
      · exact h.2 item (by rw [heq]; exact List.mem_cons_self _ _)

/-- Phase 1 establishes the circular-diagnostic invariant from the
root queue. -/
theorem resolvePhase1_inv (reg : Registry) (maxDepth fuel : Nat)
    (rootDeps : List (String × RangeStr)) :
    CircInv (resolvePhase1 reg maxDepth fuel rootDeps) := by
  apply phase1Loop_inv
  constructor
  · intro e he hc
    exact absurd he (List.not_mem_nil e)
  · intro item hitem
    have hitem' : item ∈ rootDeps.map (fun p =>
        ({ name := p.1, versionRange := p.2, depth := 0,
           dependent := "root", path := [] } : QueueItem)) := hitem
    rw [List.mem_map] at hitem'
    obtain ⟨p, -, rfl⟩ := hitem'
    exact List.nodup_nil

/-- Phase 2 appends only `no_satisfying_version` errors. -/
theorem phase2Update_errors (reg : Registry) (g1 : DependencyGraph)
    (name : String) (ranges : List CollectedRange) (node1 : DependencyNode) :
    ∀ e ∈ (phase2Update reg g1 name ranges node1).errors,
      e ∈ g1.errors ∨ e.type = ResolutionErrorType.no_satisfying_version := by
  unfold phase2Update
  split
  · exact fun e he => Or.inl he
  · split
    · exact fun e he => Or.inl he
    · exact fun e he => Or.inl he
    · split
      · intro e he
        have he' : e ∈ g1.errors ++
            [{ type := ResolutionErrorType.no_satisfying_version,
               package := name,
               message := "No version of " ++ name
                 ++ " satisfies all requirements",
               path := none }] := he
        rcases List.mem_append.mp he' with h | h
        · exact Or.inl h
        · rw [List.mem_singleton] at h
          subst h
          exact Or.inr rfl
      · split
        · exact fun e he => Or.inl he
        · split
          · exact fun e he => Or.inl he
          · exact fun e he => Or.inl he
          · exact fun e he => Or.inl he

/-- One phase-2 iteration appends only `no_satisfying_version`
errors. -/
theorem phase2Step_errors (reg : Registry) (g : DependencyGraph)
    (entry : String × List CollectedRange) :
    ∀ e ∈ (phase2Step reg g entry).errors,
      e ∈ g.errors ∨ e.type = ResolutionErrorType.no_satisfying_version := by
  unfold phase2Step
  split
  · exact fun e he => Or.inl he
  · intro e he
    rcases phase2Update_errors _ _ _ _ _ e he with h | h
    · exact Or.inl h
    · exact Or.inr h

/-- The phase-2 fold appends only `no_satisfying_version` errors. -/
theorem phase2_fold_errors (reg : Registry) :
    ∀ (l : List (String × List CollectedRange)) (g : DependencyGraph),
      ∀ e ∈ (l.foldl (phase2Step reg) g).errors,
        e ∈ g.errors ∨ e.type = ResolutionErrorType.no_satisfying_version := by
  intro l
  induction l with
  | nil => exact fun g e he => Or.inl he
  | cons x xs ih =>
    intro g e he
    rw [List.foldl_cons] at he
    rcases ih (phase2Step reg g x) e he with h | h
    · rcases phase2Step_errors reg g x e h with h' | h'
      · exact Or.inl h'
      · exact Or.inr h'
    · exact Or.inr h

/-- C4 (counterexample).  In the diamond `a → {b, c}`, `b → {c}`,
`c → {b}` the registry graph contains the 2-cycle `b → c → b`, far
below `maxDepth = 10`, yet the run records no `circular_dependency`
diagnostic at all (and even reports success): BFS first reaches `b`
and `c` on cycle-free paths through `a`, marks them as processing,
and the later arrivals that would close the cycle carry paths that do
not contain the arriving name, so the `path.includes(name)` check
never fires.  The final empty queue shows the fuel exhausted the
loop. -/
theorem resolveRecursive_claim_counterexample :
    exReg.getVersion "u" "b"
        { major := 1, minor := 0, patch := 0, prerelease := [] }
      = RegResult.ok
          { downloadUrl := "https://r/b", checksum := "00",
            manifest := [("@user/u/c", RangeStr.star)],
            deprecationMessage := none } ∧
    exReg.getVersion "u" "c"
        { major := 1, minor := 0, patch := 0, prerelease := [] }
      = RegResult.ok
          { downloadUrl := "https://r/c", checksum := "00",
            manifest := [("@user/u/b", RangeStr.star)],
            deprecationMessage := none } ∧
    ((resolveRecursive exReg 10 20 exRoots).graph.errors.filter
      (fun e => e.type == ResolutionErrorType.circular_dependency)) = [] ∧
    (resolvePhase1 exReg 10 20 exRoots).queue = [] ∧
    (resolveRecursive exReg 10 20 exRoots).success = true := by
  refine ⟨by decide, by decide, by decide, by decide, by decide⟩

/-- C4 (amended).  What the cycle check actually guarantees: every
`circular_dependency` diagnostic recorded by `resolveRecursive`
closes a duplicate-free path with one repetition of the diagnosed
package (`path = p ++ [package]` with `package ∈ p`, `p` free of
duplicates) — and on a direct 2-cycle `a → b → a` reached from the
root the run records exactly one such diagnostic, with path
`a → b → a`. -/
theorem resolveRecursive_circular_paths :
    (∀ (reg : Registry) (maxDepth fuel : Nat)
      (rootDeps : List (String × RangeStr)) (e : ResolutionError),
      e ∈ (resolveRecursive reg maxDepth fuel rootDeps).graph.errors →
      e.type = ResolutionErrorType.circular_dependency →
      ∃ p, e.path = some (p ++ [e.package]) ∧ e.package ∈ p ∧ p.Nodup) ∧
    ((resolveRecursive exReg2 10 20 [("@user/u/a", RangeStr.star)]).graph.errors.filter
        (fun e => e.type == ResolutionErrorType.circular_dependency)).map
      (fun e => (e.package, e.path))
      = [("@user/u/a", some ["@user/u/a", "@user/u/b", "@user/u/a"])] ∧
    (resolvePhase1 exReg2 10 20 [("@user/u/a", RangeStr.star)]).queue = [] := by
  refine ⟨?_, by decide, by decide⟩
  intro reg maxDepth fuel rootDeps e he hc
  have he' : e ∈
      (((resolvePhase1 reg maxDepth fuel rootDeps).rangesByPackage).foldl
        (phase2Step reg)
        { nodes := (resolvePhase1 reg maxDepth fuel rootDeps).nodes,
          roots := rootDeps.map Prod.fst,
          errors := (resolvePhase1 reg maxDepth fuel rootDeps).errors,
          conflicts := [] }).errors := he
  rcases phase2_fold_errors reg
      ((resolvePhase1 reg maxDepth fuel rootDeps).rangesByPackage)
      { nodes := (resolvePhase1 reg maxDepth fuel rootDeps).nodes,
        roots := rootDeps.map Prod.fst,
        errors := (resolvePhase1 reg maxDepth fuel rootDeps).errors,
        conflicts := [] } e he' with h | h
  · exact (resolvePhase1_inv reg maxDepth fuel rootDeps).1 e h hc
  · rw [hc] at h
    exact ResolutionErrorType.noConfusion h

/-- C4 (witness).  The amended theorem applied to the one diagnostic
of the concrete 2-cycle run. -/
theorem resolveRecursive_circular_paths_witness :
    ∃ p, (some ["@user/u/a", "@user/u/b", "@user/u/a"] : Option (List String)) =
        some (p ++ ["@user/u/a"]) ∧ "@user/u/a" ∈ p ∧ p.Nodup :=
  resolveRecursive_circular_paths.1 exReg2 10 20 [("@user/u/a", RangeStr.star)]
    { type := ResolutionErrorType.circular_dependency,
      package := "@user/u/a",
      message := "Circular dependency detected: @user/u/a -> @user/u/b -> @user/u/a",
      path := some ["@user/u/a", "@user/u/b", "@user/u/a"] }
    (by decide) (by decide)

/-- C3 (confirmed).  When some registry package validated and the
recursive resolution is unsuccessful (non-empty errors or conflicts),
`add` exits with code 1 having performed no install step: the project
store, the lockfile and the manifest are untouched, since every write
of the command happens in the install phase the failing branch never
reaches. -/
theorem add_resolution_failure_no_writes
    (validate : String → Option ResolvedPkg) (reg : Registry)
    (maxDepth fuel : Nat) (specifiers : List String)
    (hreg : ((specifiers.filterMap validate).filter isRegistryPkg).isEmpty = false)
    (hfail : (resolveRecursive reg maxDepth fuel
      (registryRootDeps (specifiers.filterMap validate))).success = false) :
    addModel validate reg maxDepth fuel specifiers = (some 1, []) := by
  have h1 : (specifiers.filterMap validate).isEmpty = false := by
    cases he : specifiers.filterMap validate with
    | nil => rw [he] at hreg; simp at hreg
    | cons a l => rfl
  unfold addModel
  rw [if_neg (by simp [h1]), if_neg (by simp [hreg]), if_neg (by simp [hfail])]

/-- C3 (witness).  Requesting `@user/u/a` against the 2-cycle
registry: resolution fails on the circular dependency and the command
exits 1 with an empty write trace. -/
theorem add_resolution_failure_no_writes_witness :
    ((["@user/u/a"].filterMap exValidate).filter isRegistryPkg).isEmpty = false ∧
    (resolveRecursive exReg2 10 20
      (registryRootDeps (["@user/u/a"].filterMap exValidate))).success = false ∧
    addModel exValidate exReg2 10 20 ["@user/u/a"] = (some 1, []) :=
  ⟨by decide, by decide,
    add_resolution_failure_no_writes exValidate exReg2 10 20 ["@user/u/a"]
      (by decide) (by decide)⟩
